import Mathlib

/-!
Verification of the markdown chunking / marker-expansion core of the
`acadwrite` repository.

The Python source is shallowly embedded as executable Lean definitions.
Conventions used throughout:

* Python `str` values are represented by Lean `String`; where character-level
  work is needed (stripping, scanning, regex-like matching) we operate on the
  string's `List Char` via small helper functions mirroring the Python string
  methods (`str.strip`, `str.split`, `"\n".join`, ...).
* Python's `text.split("\n")` / `"\n".join(lines)` pair is embedded by
  `pySplitLines` / `pyJoinLines`, defined by plain structural recursion so
  that all proofs can proceed by induction.
* `re` patterns used by the source are compiled by hand into deterministic
  character-level matchers; each matcher's doc comment records the pattern it
  implements and the backtracking analysis justifying the deterministic form.
* Recursions that in Python advance a cursor by a variable amount are given a
  fuel parameter (initialised to a bound that can never be exhausted) so that
  every definition computes by kernel reduction.
-/

namespace Acadwrite

/-! ## Character-level foundations (Python string-method semantics) -/

/-- Python's whitespace set as used by `str.strip`, `str.split()` and the
regex class `\s` (ASCII fragment, which is all the source relies on). -/
def isPySpace (c : Char) : Bool :=
  c = ' ' || c = '\t' || c = '\n' || c = '\r' || c = '\x0b' || c = '\x0c'

/-- Regex `\w`: ASCII letters, digits and underscore. -/
def isWordChar (c : Char) : Bool :=
  ('a' ≤ c && c ≤ 'z') || ('A' ≤ c && c ≤ 'Z') || ('0' ≤ c && c ≤ '9') || c = '_'

/-- Regex `[A-Z]`. -/
def isUpperAZ (c : Char) : Bool := 'A' ≤ c && c ≤ 'Z'

/-- Regex `[a-z]`. -/
def isLowerAZ (c : Char) : Bool := 'a' ≤ c && c ≤ 'z'

/-- Python `str.strip()` on a character list: drop leading and trailing
whitespace. -/
def stripList (l : List Char) : List Char :=
  ((l.dropWhile isPySpace).reverse.dropWhile isPySpace).reverse

/-- Python `str.strip()`. -/
def pyStrip (s : String) : String := ⟨stripList s.data⟩

/-- Python `text.split("\n")` at the character level: `splitNl [] = [[]]`,
and every `'\n'` starts a new piece (matching Python, which returns one more
piece than there are separators). -/
def splitNl : List Char → List (List Char)
  | [] => [[]]
  | c :: rest =>
    if c = '\n' then [] :: splitNl rest
    else
      match splitNl rest with
      | p :: ps => (c :: p) :: ps
      | [] => [[c]]

/-- Python `"\n".join` at the character level. -/
def joinNl : List (List Char) → List Char
  | [] => []
  | [x] => x
  | x :: xs => x ++ '\n' :: joinNl xs

/-- Python `text.split("\n")`. -/
def pySplitLines (s : String) : List String := (splitNl s.data).map fun l => ⟨l⟩

/-- Python `"\n".join(lines)`. -/
def pyJoinLines (xs : List String) : String := ⟨joinNl (xs.map String.data)⟩

/-- Python `str.split()` (no separator): split on whitespace runs, dropping
empty pieces.  Implemented with a fuel parameter for kernel computability;
`pySplitWs` supplies enough fuel. -/
def splitWsAux : Nat → List Char → List (List Char)
  | 0, _ => []
  | _ + 1, [] => []
  | fuel + 1, l =>
    let l' := l.dropWhile isPySpace
    match l'.takeWhile (fun c => !isPySpace c), l'.dropWhile (fun c => !isPySpace c) with
    | [], _ => []
    | tok, rest => tok :: splitWsAux fuel rest

/-- Python `str.split()` with no arguments. -/
def pySplitWs (s : String) : List String :=
  (splitWsAux (s.data.length + 1) s.data).map fun l => ⟨l⟩

/-- Python `a.startswith(b)` on character lists. -/
def startsWithList (pre l : List Char) : Bool := pre.isPrefixOf l

/-! ## Basic lemmas about the split/join pair -/

theorem splitNl_ne_nil (a : List Char) : splitNl a ≠ [] := by
  induction a with
  | nil => simp [splitNl]
  | cons d a iha =>
    by_cases hd : d = '\n'
    · simp [splitNl, hd]
    · simp only [splitNl, hd, if_false]
      split <;> simp_all

theorem splitNl_append_newline (a b : List Char) :
    splitNl (a ++ '\n' :: b) = splitNl a ++ splitNl b := by
  induction a with
  | nil => simp [splitNl]
  | cons c a ih =>
    by_cases hc : c = '\n'
    · subst hc
      simp [splitNl, ih]
    · rcases h : splitNl a with _ | ⟨p, ps⟩
      · exact absurd h (splitNl_ne_nil a)
      · simp [splitNl, hc, ih, h]

/-- Splitting the join of a nonempty list of pieces yields the concatenation
of the splits of the pieces. -/
theorem splitNl_joinNl (x : List Char) (xs : List (List Char)) :
    splitNl (joinNl (x :: xs)) = splitNl x ++ (xs.map splitNl).flatten := by
  induction xs generalizing x with
  | nil => simp [joinNl]
  | cons y ys ih =>
    show splitNl (x ++ '\n' :: joinNl (y :: ys)) = _
    rw [splitNl_append_newline, ih y]
    simp

/-- A piece that contains no newline splits to itself. -/
theorem splitNl_no_newline (x : List Char) (hx : '\n' ∉ x) : splitNl x = [x] := by
  induction x with
  | nil => simp [splitNl]
  | cons c x ih =>
    have hc : c ≠ '\n' := fun h => hx (h ▸ List.mem_cons_self c x)
    have hx' : '\n' ∉ x := fun h => hx (List.mem_cons_of_mem _ h)
    simp [splitNl, hc, ih hx']

theorem splitNl_cons_newline (rest : List Char) :
    splitNl ('\n' :: rest) = [] :: splitNl rest := rfl

theorem splitNl_cons_other (c : Char) (rest : List Char) (hc : ¬ c = '\n') :
    splitNl (c :: rest) =
      match splitNl rest with
      | p :: ps => (c :: p) :: ps
      | [] => [[c]] := by
  simp [splitNl, hc]

theorem mem_splitNl_no_newline (l : List Char) :
    ∀ p ∈ splitNl l, '\n' ∉ p := by
  induction l with
  | nil => intro p hp; simp [splitNl] at hp; simp [hp]
  | cons c rest ih =>
    intro p hp
    by_cases hc : c = '\n'
    · subst hc
      rw [splitNl_cons_newline, List.mem_cons] at hp
      rcases hp with h1 | h2
      · subst h1; simp
      · exact ih p h2
    · cases h : splitNl rest with
      | nil => exact absurd h (splitNl_ne_nil rest)
      | cons q qs =>
        rw [splitNl_cons_other c rest hc, h, List.mem_cons] at hp
        rcases hp with rfl | hp
        · have hq : '\n' ∉ q := ih q (h ▸ List.mem_cons_self q qs)
          simp only [List.mem_cons, not_or]
          exact ⟨fun hf => hc hf.symm, hq⟩
        · exact ih p (h ▸ List.mem_cons_of_mem q hp)

theorem joinNl_cons_cons (x : List Char) (ys : List (List Char)) (c : Char) :
    joinNl ((c :: x) :: ys) = c :: joinNl (x :: ys) := by
  cases ys <;> simp [joinNl]

theorem joinNl_splitNl (l : List Char) : joinNl (splitNl l) = l := by
  induction l with
  | nil => simp [splitNl, joinNl]
  | cons c rest ih =>
    by_cases hc : c = '\n'
    · subst hc
      cases h : splitNl rest with
      | nil => exact absurd h (splitNl_ne_nil rest)
      | cons q qs =>
        rw [splitNl_cons_newline, h]
        show joinNl ([] :: q :: qs) = '\n' :: rest
        simp [joinNl]
        rw [show (q :: qs) = splitNl rest from h.symm, ih]
    · cases h : splitNl rest with
      | nil => exact absurd h (splitNl_ne_nil rest)
      | cons q qs =>
        rw [splitNl_cons_other c rest hc, h]
        rw [joinNl_cons_cons, show (q :: qs) = splitNl rest from h.symm, ih]

theorem joinNl_cons_ne (x : List Char) (zs : List (List Char)) (h : zs ≠ []) :
    joinNl (x :: zs) = x ++ '\n' :: joinNl zs := by
  rcases zs with _ | ⟨z, zt⟩
  · exact absurd rfl h
  · simp [joinNl]

theorem joinNl_append (A B : List (List Char)) (hA : A ≠ []) (hB : B ≠ []) :
    joinNl (A ++ B) = joinNl A ++ '\n' :: joinNl B := by
  induction A with
  | nil => exact absurd rfl hA
  | cons x A ih =>
    cases A with
    | nil =>
      rw [List.singleton_append, joinNl_cons_ne x B hB]
      simp [joinNl]
    | cons y A' =>
      rw [List.cons_append, joinNl_cons_ne x _ (by simp), ih (by simp),
        joinNl_cons_ne x (y :: A') (by simp)]
      simp

theorem joinNl_replace_piece (A B : List (List Char)) (c : List Char) :
    joinNl (A ++ splitNl c ++ B) = joinNl (A ++ [c] ++ B) := by
  have h1 : joinNl (splitNl c ++ B) = joinNl ([c] ++ B) := by
    rcases B with _ | ⟨b, bs⟩
    · simp [joinNl_splitNl, joinNl]
    · rw [joinNl_append _ _ (splitNl_ne_nil c) (by simp),
        joinNl_append [c] _ (by simp) (by simp), joinNl_splitNl]
      simp [joinNl]
  rcases A with _ | ⟨a, as⟩
  · simpa using h1
  · rw [List.append_assoc, List.append_assoc,
      joinNl_append (a :: as) _ (by simp)
        (by simpa using fun h => splitNl_ne_nil c (List.append_eq_nil.mp h).1),
      joinNl_append (a :: as) _ (by simp) (by simp), h1]

/-- Structure eta for `String`. -/
theorem string_mk_data (s : String) : (⟨s.data⟩ : String) = s := rfl

theorem pySplitLines_no_newline (t : String) :
    ∀ x ∈ pySplitLines t, '\n' ∉ x.data := by
  intro x hx
  simp only [pySplitLines, List.mem_map] at hx
  obtain ⟨p, hp, rfl⟩ := hx
  exact mem_splitNl_no_newline t.data p hp

theorem flatten_map_singleton {α : Type} (L : List α) :
    (L.map (fun a => [a])).flatten = L := by
  induction L with
  | nil => simp
  | cons a l ih => simp [ih]

/-- Splitting the join of an arbitrary nonempty list of pieces. -/
theorem splitNl_joinNl_flatten (M : List (List Char)) (hM : M ≠ []) :
    splitNl (joinNl M) = (M.map splitNl).flatten := by
  rcases M with _ | ⟨m, ms⟩
  · exact absurd rfl hM
  · rw [splitNl_joinNl m ms]; simp

/-- Splitting the join of line lists around one arbitrary string: the
newline-free pieces pass through unchanged and the middle string splits into
its own lines. -/
theorem pySplitLines_splice (A B : List String) (c : String)
    (hA : ∀ x ∈ A, '\n' ∉ x.data) (hB : ∀ x ∈ B, '\n' ∉ x.data) :
    pySplitLines (pyJoinLines (A ++ [c] ++ B)) = A ++ pySplitLines c ++ B := by
  have hmap : (A ++ [c] ++ B).map String.data =
      A.map String.data ++ [c.data] ++ B.map String.data := by simp
  have hsplitA : (A.map String.data).map splitNl = (A.map String.data).map (fun a => [a]) := by
    apply List.map_congr_left
    intro a ha
    obtain ⟨x, hx, rfl⟩ := List.mem_map.mp ha
    exact splitNl_no_newline _ (hA x hx)
  have hsplitB : (B.map String.data).map splitNl = (B.map String.data).map (fun a => [a]) := by
    apply List.map_congr_left
    intro a ha
    obtain ⟨x, hx, rfl⟩ := List.mem_map.mp ha
    exact splitNl_no_newline _ (hB x hx)
  have key : splitNl (joinNl ((A ++ [c] ++ B).map String.data)) =
      (A.map String.data) ++ splitNl c.data ++ (B.map String.data) := by
    rw [hmap, splitNl_joinNl_flatten _ (by simp)]
    rw [List.map_append, List.map_append, List.flatten_append, List.flatten_append,
      hsplitA, hsplitB, flatten_map_singleton, flatten_map_singleton]
    simp
  have hid : ∀ (L : List String), (L.map String.data).map (fun l => (⟨l⟩ : String)) = L := by
    intro L
    induction L with
    | nil => rfl
    | cons a l ih => simpa using ih
  show (splitNl (joinNl ((A ++ [c] ++ B).map String.data))).map
      (fun l => (⟨l⟩ : String)) = _
  rw [key, List.map_append, List.map_append, hid A, hid B]
  rfl

/-- Joining with a string's own line list in the middle gives the same text
as joining with the string itself. -/
theorem pyJoinLines_replace_piece (A B : List String) (c : String) :
    pyJoinLines (A ++ pySplitLines c ++ B) = pyJoinLines (A ++ [c] ++ B) := by
  show (⟨joinNl ((A ++ pySplitLines c ++ B).map String.data)⟩ : String) = _
  have hmid : (pySplitLines c).map String.data = splitNl c.data := by
    show ((splitNl c.data).map (fun l => (⟨l⟩ : String))).map String.data = _
    rw [List.map_map]
    exact List.map_id _
  congr 1
  rw [List.map_append, List.map_append, hmid, List.map_append, List.map_append]
  exact joinNl_replace_piece _ _ _

/-! ## Marker model (`acadwrite/models/section.py`) -/

/-- `MarkerOperation` enumeration from `models/section.py`. -/
inductive MarkerOperation where
  | expand | evidence | citations | clarity | contradict
deriving DecidableEq, Repr

/-- `MarkerOperation(operation_str)` with the parser's `except ValueError`
fallback to `EXPAND` (from `MarkerParser.parse_markers`). -/
def opOfString (s : String) : MarkerOperation :=
  if s = "expand" then .expand
  else if s = "evidence" then .evidence
  else if s = "citations" then .citations
  else if s = "clarity" then .clarity
  else if s = "contradict" then .contradict
  else .expand

/-- `ExpansionMarker` pydantic model.  `params` is Python's insertion-ordered
dict of string keys/values, embedded as an association list with
insert-or-overwrite semantics (`dictInsert`). -/
structure ExpansionMarker where
  operation : MarkerOperation := .expand
  start_line : Nat
  end_line : Nat
  content : String
  context : Option String := none
  heading : Option String := none
  heading_level : Nat := 1
  params : List (String × String) := []
deriving DecidableEq, Repr

/-! ## Regex matchers of `MarkerParser` and `MarkdownChunker`

Each matcher implements one `re` pattern of the source by deterministic
character scanning; the accompanying comments record the backtracking
analysis showing the deterministic form is equivalent to the pattern. -/

/-- Case-insensitive literal prefix match (patterns compiled with
`re.IGNORECASE`); returns the rest of the input on success. -/
def dropPrefixCI : List Char → List Char → Option (List Char)
  | [], l => some l
  | _ :: _, [] => none
  | p :: ps, c :: cs => if c.toLower = p.toLower then dropPrefixCI ps cs else none

/-- Case-sensitive literal prefix; returns the rest on success. -/
def dropPrefixLit : List Char → List Char → Option (List Char)
  | [], l => some l
  | _ :: _, [] => none
  | p :: ps, c :: cs => if c = p then dropPrefixLit ps cs else none

/-- `^(#{1,6})\s+(.+)$` (`HEADING_PATTERN`, also used inline by the chunker),
applied with `re.match` to a whole line (no `'\n'` inside).  Returns
(heading level, raw `group(2)`).  `#{1,6}` must be followed by whitespace, so
seven or more `#` fail; `\s+` is greedy but backtracks to leave one
whitespace character for `(.+)` when nothing else follows. -/
def headingMatch (l : List Char) : Option (Nat × String) :=
  let n := (l.takeWhile (· = '#')).length
  if 1 ≤ n ∧ n ≤ 6 then
    let tail := l.drop n
    let w := (tail.takeWhile isPySpace).length
    if w = 0 then none
    else if w < tail.length then some (n, ⟨tail.drop w⟩)
    else if 2 ≤ w then some (n, ⟨tail.drop (w - 1)⟩)
    else none
  else none

/-- Does `l` begin with `\s*-->` (whitespace then the literal arrow)?  Used
to locate the end of the lazy parameter group of `START_PATTERN`. -/
def arrowAfterWs (l : List Char) : Bool :=
  startsWithList "-->".data (l.dropWhile isPySpace)

/-- Least `k ≥ 1` (counting from `k0` for the initial call's offset) such
that dropping `k` characters of the input leaves `\s*-->...`; `none` if no
such split exists.  This is where the lazy group `(.+?)` of `START_PATTERN`
stops. -/
def minArrowSplit : List Char → Nat → Option Nat
  | [], _ => none
  | l@(_ :: rest), k => if arrowAfterWs l then some k else minArrowSplit rest (k + 1)

/-- `<!--\s*ACADWRITE:\s*(\w+)(?:\s+(.+?))?\s*-->` with `re.IGNORECASE`,
applied with `re.match` to the stripped line (prefix match: trailing text
after the arrow is allowed).  Returns (`group(1)`, optional `group(2)`).

After the mandatory word, let `r` be the rest, `W` its leading-whitespace
run and `t` the remainder (which starts with a non-space).  Regex
backtracking gives: with `W = 0` the optional group cannot start, so `t`
must begin with `-->`; with `W ≥ 1` the engine first tries the group with
the lazy content ending at the least `k ≥ 1` where `t.drop k` is `\s*-->`;
if no such `k` exists but `t` itself starts with `-->`, the group matches a
single whitespace character when `W ≥ 2` (content `r[W-1]`) and is skipped
when `W = 1`. -/
def startMatch (l : List Char) : Option (String × Option String) :=
  match dropPrefixLit "<!--".data l with
  | none => none
  | some l1 =>
    match dropPrefixCI "ACADWRITE".data (l1.dropWhile isPySpace) with
    | none => none
    | some l2 =>
      match dropPrefixLit ":".data l2 with
      | none => none
      | some l3 =>
        let l4 := l3.dropWhile isPySpace
        let word := l4.takeWhile isWordChar
        if word.isEmpty then none
        else
          let r := l4.drop word.length
          let W := (r.takeWhile isPySpace).length
          let t := r.drop W
          if W = 0 then
            if startsWithList "-->".data t then some (⟨word⟩, none) else none
          else
            match minArrowSplit (t.drop 1) 1 with
            | some k => some (⟨word⟩, some ⟨t.take k⟩)
            | none =>
              if startsWithList "-->".data t then
                if 2 ≤ W then some (⟨word⟩, some ⟨(r.drop (W - 1)).take 1⟩)
                else some (⟨word⟩, none)
              else none

/-- `<!--\s*END\s+ACADWRITE\s*-->` with `re.IGNORECASE`, `re.match` against
the stripped line (trailing text allowed). -/
def endMatch (l : List Char) : Bool :=
  match dropPrefixLit "<!--".data l with
  | none => false
  | some l1 =>
    match dropPrefixCI "END".data (l1.dropWhile isPySpace) with
    | none => false
    | some l2 =>
      let w := (l2.takeWhile isPySpace).length
      if w = 0 then false
      else
        match dropPrefixCI "ACADWRITE".data (l2.drop w) with
        | none => false
        | some l3 => startsWithList "-->".data (l3.dropWhile isPySpace)

/-! ## `MarkerParser` (`acadwrite/workflows/marker_parser.py`) -/

/-- Python dict assignment `params[key] = value`: overwrite in place or
append. -/
def dictInsert (d : List (String × String)) (k v : String) : List (String × String) :=
  if d.any (fun p => p.1 = k) then d.map (fun p => if p.1 = k then (k, v) else p)
  else d ++ [(k, v)]

/-- Python dict-membership test `key in params`. -/
def dictMem (d : List (String × String)) (k : String) : Bool :=
  d.any (fun p => p.1 = k)

/-- `MarkerParser._parse_params`: whitespace-split the parameter string and
keep `key=value` tokens, splitting each at its first `=`. -/
def parseParams (s : String) : List (String × String) :=
  (pySplitWs s).foldl
    (fun d part =>
      if part.data.contains '=' then
        let k : String := ⟨part.data.takeWhile (· ≠ '=')⟩
        let v : String := ⟨part.data.drop (k.data.length + 1)⟩
        dictInsert d (pyStrip k) (pyStrip v)
      else d)
    []

/-- Scan for the first line matching `END_PATTERN`, counting absolute line
numbers from `j`. -/
def findEndAux : List String → Nat → Option Nat
  | [], _ => none
  | l :: ls, j => if endMatch (stripList l.data) then some j else findEndAux ls (j + 1)

/-- The inner `while` of `parse_markers` that looks for the end marker:
index of the first line at or after `j` whose stripped text matches
`END_PATTERN`. -/
def findEndIdx (lines : List String) (j : Nat) : Option Nat :=
  findEndAux (lines.drop j) j

/-- Python `str.lower()`. -/
def pyLower (s : String) : String := ⟨s.data.map Char.toLower⟩

/-- The `while i < len(lines)` loop of `MarkerParser.parse_markers`, with a
fuel parameter (the loop advances `i` by at least one per iteration, so
`lines.length` fuel is always enough).  State: current index, current
heading (`None` before any heading) and its level. -/
def parseLoop (lines : List String) :
    Nat → Nat → Option String → Nat → List ExpansionMarker
  | 0, _, _, _ => []
  | fuel + 1, i, heading, hlevel =>
    match lines.get? i with
    | none => []
    | some line =>
      match headingMatch line.data with
      | some (lvl, txt) => parseLoop lines fuel (i + 1) (some (pyStrip txt)) lvl
      | none =>
        match startMatch (stripList line.data) with
        | none => parseLoop lines fuel (i + 1) heading hlevel
        | some (op, ps) =>
          match findEndIdx lines (i + 1) with
          | none => []
          | some e =>
            { operation := opOfString (pyLower op)
              start_line := i
              end_line := e
              content := pyStrip (pyJoinLines ((lines.drop (i + 1)).take (e - (i + 1))))
              context := none
              heading := heading
              heading_level := hlevel
              params := match ps with
                        | some s => if s.isEmpty then [] else parseParams s
                        | none => [] } ::
            parseLoop lines fuel (e + 1) heading hlevel

/-- `MarkerParser.parse_markers`. -/
def parse_markers (text : String) : List ExpansionMarker :=
  let lines := pySplitLines text
  parseLoop lines lines.length 0 none 1

/-- `MarkerParser.replace_marker_with_content`: splice lines
`[start_line, end_line]` out and put the single replacement string in their
place. -/
def replace_marker_with_content (text : String) (m : ExpansionMarker)
    (c : String) : String :=
  let lines := pySplitLines text
  pyJoinLines (lines.take m.start_line ++ [c] ++ lines.drop (m.end_line + 1))

/-- Stable insertion into a list sorted by `start_line` descending; together
with `sortExpansionsDesc` this models Python's stable
`sorted(key=start_line, reverse=True)`. -/
def insertDesc (x : ExpansionMarker × String) :
    List (ExpansionMarker × String) → List (ExpansionMarker × String)
  | [] => [x]
  | y :: ys =>
    if y.1.start_line ≤ x.1.start_line then x :: y :: ys else y :: insertDesc x ys

/-- Stable sort by `start_line` descending. -/
def sortExpansionsDesc :
    List (ExpansionMarker × String) → List (ExpansionMarker × String)
  | [] => []
  | x :: xs => insertDesc x (sortExpansionsDesc xs)

/-- `MarkerParser.replace_all_markers`: sort by `start_line` descending then
apply `replace_marker_with_content` for each pair. -/
def replace_all_markers (text : String)
    (expansions : List (ExpansionMarker × String)) : String :=
  (sortExpansionsDesc expansions).foldl
    (fun t mc => replace_marker_with_content t mc.1 mc.2) text

/-! Sanity checks of the parser embedding against the source's doctest and
unit tests. -/

example :
    (parse_markers "\n## Introduction\n<!-- ACADWRITE: expand -->\n- Topic: AI in healthcare\n- Focus: diagnostics\n<!-- END ACADWRITE -->\n").length = 1 := by
  decide

example :
    parse_markers "## Test\n\n<!-- ACADWRITE: expand -->\nContent without end marker\n\n## Next Section\n" = [] := by
  decide

example :
    (parse_markers "## Test\n\n<!-- acadwrite: UNKNOWN_op -->\nContent\n<!-- end ACADWRITE -->\n").map
      (fun m => (m.operation, m.start_line, m.end_line, m.content, m.heading)) =
    [(.expand, 2, 4, "Content", some "Test")] := by
  decide

example :
    (parse_markers "<!-- ACADWRITE: evidence type=graph max_words=50 -->\nX\n<!-- END ACADWRITE -->").map
      (fun m => (m.operation, m.params)) =
    [(.evidence, [("type", "graph"), ("max_words", "50")])] := by
  decide

/-! ## `MarkdownChunker` (`acadwrite/workflows/markdown_chunker.py`) -/

/-- `ChunkType` enumeration. -/
inductive ChunkType where
  | paragraph | heading | list | code | quote
deriving DecidableEq, Repr

/-- The `Chunk` dataclass. -/
structure Chunk where
  heading : String
  text : String
  type : ChunkType
  context : String
  start_pos : Nat
  end_pos : Nat
  level : Nat := 0
deriving DecidableEq, Repr

/-- Python `sep.join(xs)`. -/
def pyJoinSep (sep : String) (xs : List String) : String :=
  ⟨List.intercalate sep.data (xs.map String.data)⟩

/-- An intermediate section record produced by
`MarkdownChunker._parse_sections` (a Python dict in the source). -/
structure SectionRec where
  heading : String
  content : String
  context : String
  start_pos : Nat
  level : Nat
deriving DecidableEq, Repr

/-- State of the `_parse_sections` scan. -/
structure SectionScanState where
  current_heading : String
  current_content : List String
  current_level : Nat
  heading_stack : List String
  pos : Nat
  sections : List SectionRec
deriving Repr

/-- The section dict appended by `_parse_sections` from the current scan
state (used both mid-scan and for the final section). -/
def sectionOfState (st : SectionScanState) : SectionRec :=
  { heading := st.current_heading
    content := pyJoinLines st.current_content
    context := if st.heading_stack ≠ [] then pyJoinSep " > " st.heading_stack
               else st.current_heading
    start_pos := st.pos - (pyJoinLines st.current_content).length
    level := st.current_level }

/-- The source's stack update
`while heading_stack and len(heading_stack) >= level: heading_stack.pop()`:
entries are popped from the end until the stack's *length* drops below
`level`, i.e. the first `level - 1` entries are kept whenever the stack is
at least `level` long.  (Note: the loop condition compares the stack's
length, not the levels of its entries.) -/
def popToDepth (stack : List String) (level : Nat) : List String :=
  if level ≤ stack.length then stack.take (level - 1) else stack

/-- One iteration of the `for line in lines` loop of `_parse_sections`. -/
def parseSectionsStep (st : SectionScanState) (line : String) : SectionScanState :=
  match headingMatch line.data with
  | some (lvl, raw) =>
    let st1 := if st.current_heading ≠ "" then
                 { st with sections := st.sections ++ [sectionOfState st] }
               else st
    let htxt := pyStrip raw
    { st1 with
      current_heading := htxt
      current_content := []
      current_level := lvl
      heading_stack := popToDepth st1.heading_stack lvl ++ [htxt]
      pos := st1.pos + line.length + 1 }
  | none =>
    { st with
      current_content := st.current_content ++ [line]
      pos := st.pos + line.length + 1 }

/-- `MarkdownChunker._parse_sections` (leading underscore dropped for Lean). -/
def parse_sections (markdown_text : String) : List SectionRec :=
  let st := (pySplitLines markdown_text).foldl parseSectionsStep
    { current_heading := "", current_content := [], current_level := 0
      heading_stack := [], pos := 0, sections := [] }
  if st.current_heading ≠ "" then st.sections ++ [sectionOfState st]
  else st.sections

/-- Regex `^[\s]*[-*+]\s+` (list-item detection), `re.match` prefix form. -/
def listItemMatch (l : List Char) : Bool :=
  match l.dropWhile isPySpace with
  | c :: rest =>
    (c = '-' || c = '*' || c = '+') &&
    (match rest with | r :: _ => isPySpace r | [] => false)
  | [] => false

/-- State of the `_split_into_blocks` scan. -/
structure BlockScanState where
  blocks : List String
  current : List String
  in_code : Bool
  in_list : Bool
deriving Repr

/-- One iteration of the `for line in content.split("\n")` loop of
`_split_into_blocks`, with the source's branch order: fence toggle, inside
fence, list item, end-of-list flush (falls through), blank line, regular
content. -/
def splitBlocksStep (st : BlockScanState) (line : String) : BlockScanState :=
  if startsWithList "```".data (stripList line.data) then
    let in_code' := !st.in_code
    let cur := st.current ++ [line]
    if in_code' then { st with current := cur, in_code := in_code' }
    else { st with blocks := st.blocks ++ [pyJoinLines cur], current := [],
                   in_code := in_code' }
  else if st.in_code then
    { st with current := st.current ++ [line] }
  else if listItemMatch line.data then
    if st.in_list then { st with current := st.current ++ [line] }
    else
      let st1 := if st.current ≠ [] then
                   { st with blocks := st.blocks ++ [pyJoinLines st.current],
                             current := [] }
                 else st
      { st1 with in_list := true, current := st1.current ++ [line] }
  else
    let st1 := if st.in_list && stripList line.data ≠ [] then
                 { st with blocks := st.blocks ++ [pyJoinLines st.current],
                           current := [], in_list := false }
               else st
    if stripList line.data = [] then
      if st1.current ≠ [] then
        { st1 with blocks := st1.blocks ++ [pyJoinLines st1.current], current := [] }
      else st1
    else
      { st1 with current := st1.current ++ [line] }

/-- `MarkdownChunker._split_into_blocks`. -/
def split_into_blocks (content : String) : List String :=
  let st := (pySplitLines content).foldl splitBlocksStep
    { blocks := [], current := [], in_code := false, in_list := false }
  let blocks := if st.current ≠ [] then st.blocks ++ [pyJoinLines st.current]
                else st.blocks
  blocks.filter (fun b => stripList b.data ≠ [])

/-- `MarkdownChunker._detect_block_type`. -/
def detect_block_type (block : String) : ChunkType :=
  let bs := stripList block.data
  if startsWithList "```".data bs then .code
  else if startsWithList ">".data bs then .quote
  else if listItemMatch bs then .list
  else .paragraph

/-- `MarkdownChunker._estimate_tokens`: `len(text) // 4`. -/
def estimate_tokens (text : String) : Nat := text.length / 4

/-- The split condition of the sentence-splitting regex
`(?<!\w\.\w.)(?<![A-Z][a-z]\.)(?<=\.|\?|\!)\s+(?=[A-Z])` at one position:
`prevRev` is the already-consumed text in reverse (so `prevRev.head` is the
character just before the position) and `rest` is the unconsumed text.  A
match needs: previous character one of `.!?`; the three characters before
the position not of shape `[A-Z][a-z].`; the four characters before not of
shape `\w.\w<any-non-newline>`; and a nonempty whitespace run followed by a
capital letter ahead. -/
def isSplitHere (prevRev rest : List Char) : Bool :=
  match prevRev with
  | [] => false
  | p1 :: pr =>
    (p1 = '.' || p1 = '!' || p1 = '?') &&
    !(match pr with
      | p2 :: p3 :: _ => isUpperAZ p3 && isLowerAZ p2 && p1 = '.'
      | _ => false) &&
    !(match pr with
      | p2 :: p3 :: p4 :: _ => isWordChar p4 && p3 = '.' && isWordChar p2 && p1 ≠ '\n'
      | _ => false) &&
    (let w := (rest.takeWhile isPySpace).length
     decide (1 ≤ w) &&
     (match rest.drop w with | c :: _ => isUpperAZ c | [] => false))

/-- The scan implementing `re.split` with the sentence pattern: pieces are
the text between matches, each match consuming its whole whitespace run.
`curRev` accumulates the current piece in reverse; fuel (initialised to the
text length) only pads out the variable-size whitespace skips. -/
def sentenceScan : Nat → List Char → List Char → List Char → List (List Char) →
    List (List Char)
  | _, _, [], curRev, acc => acc ++ [curRev.reverse]
  | 0, _, rest, curRev, acc => acc ++ [curRev.reverse ++ rest]
  | fuel + 1, prevRev, rest@(c :: rest'), curRev, acc =>
    if isSplitHere prevRev rest then
      let w := (rest.takeWhile isPySpace).length
      sentenceScan fuel ((rest.take w).reverse ++ prevRev) (rest.drop w) []
        (acc ++ [curRev.reverse])
    else
      sentenceScan fuel (c :: prevRev) rest' (c :: curRev) acc

/-- `MarkdownChunker._split_into_sentences`: regex split, then strip each
piece and drop empties.  (The source also defines an `abbreviations` set
just above the regex, but never uses it; the regex lookbehinds are the only
abbreviation protection.) -/
def split_into_sentences (text : String) : List String :=
  (((sentenceScan text.data.length [] text.data [] []).map stripList).filter
    (· ≠ [])).map fun l => (⟨l⟩ : String)

/-- State of the `_chunk_paragraph` accumulation loop. -/
structure ParaScanState where
  chunks : List Chunk
  cur : List String
  curTokens : Nat
  start_pos : Nat
deriving Repr

/-- One iteration of the `for sentence in sentences` loop of
`_chunk_paragraph`. -/
def chunkParagraphStep (maxTokens : Nat) (heading context : String)
    (st : ParaScanState) (sentence : String) : ParaScanState :=
  let stok := estimate_tokens sentence
  let st1 :=
    if st.cur ≠ [] ∧ st.curTokens + stok > maxTokens then
      let ctext := pyJoinSep " " st.cur
      { chunks := st.chunks ++
          [{ heading := heading, text := ctext, type := .paragraph,
             context := context, start_pos := st.start_pos,
             end_pos := st.start_pos + ctext.length }]
        cur := [], curTokens := 0, start_pos := st.start_pos + ctext.length + 1 }
    else st
  { st1 with cur := st1.cur ++ [sentence], curTokens := st1.curTokens + stok }

/-- `MarkdownChunker._chunk_paragraph` (`self.max_tokens` passed
explicitly). -/
def chunk_paragraph (maxTokens : Nat) (paragraph heading context : String)
    (start_pos : Nat) : List Chunk :=
  let sentences := split_into_sentences paragraph
  if sentences = [] then []
  else
    let st := sentences.foldl (chunkParagraphStep maxTokens heading context)
      { chunks := [], cur := [], curTokens := 0, start_pos := start_pos }
    if st.cur ≠ [] then
      let ctext := pyJoinSep " " st.cur
      st.chunks ++
        [{ heading := heading, text := ctext, type := .paragraph,
           context := context, start_pos := st.start_pos,
           end_pos := st.start_pos + ctext.length }]
    else st.chunks

/-- `MarkdownChunker._chunk_section_content`: classify each block and emit
code/quote/list blocks verbatim, paragraph blocks via `_chunk_paragraph`. -/
def chunk_section_content (maxTokens : Nat) (content heading context : String)
    (start_pos : Nat) : List Chunk :=
  if stripList content.data = [] then []
  else
    ((split_into_blocks content).foldl
      (fun (st : List Chunk × Nat) block =>
        let bt := detect_block_type block
        let chunks :=
          if bt = .code || bt = .quote || bt = .list then
            st.1 ++ [{ heading := heading, text := block, type := bt,
                       context := context, start_pos := st.2,
                       end_pos := st.2 + block.length }]
          else
            st.1 ++ chunk_paragraph maxTokens block heading context st.2
        (chunks, st.2 + block.length + 1))
      ([], start_pos)).1

/-- `MarkdownChunker.chunk_markdown` (`self.max_tokens` passed explicitly;
the default configuration is `max_tokens = 500`). -/
def chunk_markdown (maxTokens : Nat) (markdown_text : String) : List Chunk :=
  (parse_sections markdown_text).foldl
    (fun chunks sec =>
      let chunks1 :=
        if sec.heading ≠ "" then
          chunks ++ [{ heading := sec.heading, text := sec.heading,
                       type := .heading, context := sec.context,
                       start_pos := sec.start_pos,
                       end_pos := sec.start_pos + sec.heading.length,
                       level := sec.level }]
        else chunks
      chunks1 ++ chunk_section_content maxTokens sec.content sec.heading
        sec.context sec.start_pos)
    []

/-! ## `CounterargumentGenerator._extract_key_point`
(`acadwrite/workflows/counterargument.py`) -/

/-- One `for delimiter in [".", "!", "?"]` iteration: Python
`idx = text.find(delimiter); if 0 < idx < max_length: return
text[: idx + 1].strip()`. -/
def keyPointTry (text : String) (maxL : Nat) (d : Char) : Option String :=
  match text.data.findIdx? (· = d) with
  | some i => if 0 < i ∧ i < maxL then some ⟨stripList (text.data.take (i + 1))⟩
              else none
  | none => none

/-- `CounterargumentGenerator._extract_key_point` with its default
`max_length = 200`. -/
def extract_key_point (text : String) (max_length : Nat := 200) : String :=
  match keyPointTry text max_length '.' with
  | some r => r
  | none =>
    match keyPointTry text max_length '!' with
    | some r => r
    | none =>
      match keyPointTry text max_length '?' with
      | some r => r
      | none =>
        if max_length < text.length then
          ⟨stripList (text.data.take max_length) ++ "...".data⟩
        else ⟨stripList text.data⟩

/-! Sanity checks of the chunker embedding against the source's unit
tests. -/

example :
    split_into_sentences "First sentence. Second sentence! Third sentence?" =
      ["First sentence.", "Second sentence!", "Third sentence?"] := by decide

example :
    (split_into_sentences "Dr. Smith wrote the paper. It was published in 2020.").length = 2 := by
  decide

example :
    (parse_sections "# Main\n\nIntro text\n\n## Sub\n\nBody").map
      (fun s => (s.heading, s.level, s.context)) =
    [("Main", 1, "Main"), ("Sub", 2, "Main > Sub")] := by decide

example :
    (chunk_markdown 500 "## Heading\n\nSome text.\n\n```python\ndef f():\n\n    return 1\n```\n").map
      (fun c => (c.type, c.text)) =
    [(.heading, "Heading"), (.paragraph, "Some text."),
     (.code, "```python\ndef f():\n\n    return 1\n```")] := by decide

example : extract_key_point "Short text with no punctuation" = "Short text with no punctuation" := by
  decide

/-! ## `MarkerExpander` (`acadwrite/workflows/marker_expander.py`) -/

/-- The `Citation` pydantic model (`models/section.py`). -/
structure Citation where
  id : Nat
  author : String
  title : String
  year : Option String := none
  page : Option Nat := none
  full_citation : String
deriving DecidableEq, Repr

/-- The `ExpandedContent` pydantic model (`models/section.py`). -/
structure ExpandedContent where
  marker : ExpansionMarker
  generated_content : String
  citations : List Citation := []
  success : Bool := true
  error_message : Option String := none
deriving DecidableEq, Repr

/-- Python truthiness of an `Optional[str]` (`None` and `""` are falsy). -/
def pyTruthy (o : Option String) : Bool :=
  match o with
  | none => false
  | some s => !s.isEmpty

/-- The per-marker body of the default-parameter loop at the top of
`MarkerExpander.expand_file` (lines 80–84): when a truthy default search
type is supplied and the marker has neither `type` nor `search_type`, set
`params['type']`; analogously for the answer format and `format` /
`answer_format`. -/
def applyDefaultsMarker (dst dfm : Option String) (m : ExpansionMarker) :
    ExpansionMarker :=
  let m1 :=
    if pyTruthy dst && !dictMem m.params "type" && !dictMem m.params "search_type"
    then { m with params := dictInsert m.params "type" (dst.getD "") }
    else m
  if pyTruthy dfm && !dictMem m1.params "format" && !dictMem m1.params "answer_format"
  then { m1 with params := dictInsert m1.params "format" (dfm.getD "") }
  else m1

/-- The guarded default-parameter loop of `expand_file`
(`if default_search_type or default_answer_format:` then mutate each
marker in place, modelled as a map). -/
def applyDefaults (markers : List ExpansionMarker) (dst dfm : Option String) :
    List ExpansionMarker :=
  if pyTruthy dst || pyTruthy dfm then markers.map (applyDefaultsMarker dst dfm)
  else markers

/-- The `try/except` body of the per-marker loop of `expand_file`: the
handler's result is used as-is, and a raised exception (`Except.error`) is
converted into a failed `ExpandedContent` carrying the exception message —
the loop itself never re-raises. -/
def wrapHandler (handler : ExpansionMarker → Except String ExpandedContent)
    (m : ExpansionMarker) : ExpandedContent :=
  match handler m with
  | .ok e => e
  | .error s =>
    { marker := m, generated_content := "", citations := [],
      success := false, error_message := some s }

/-- Pure core of `MarkerExpander.expand_file`.  The file read
(`find_markers_in_file`), console and progress output are abstracted away;
`handler` stands for `await self.expand_marker(marker, collection,
original_text)` and returns either the handler's `ExpandedContent` or the
message of a raised exception, which the `try/except` around the per-marker
loop converts into a failed `ExpandedContent` (the loop itself never
re-raises).  Only successful expansions are handed to
`replace_all_markers`; the unused `dry_run` flag of the source is
omitted. -/
def expand_file (original_text : String)
    (handler : ExpansionMarker → Except String ExpandedContent)
    (dst dfm : Option String) : String × List ExpandedContent :=
  let markers := parse_markers original_text
  if markers.isEmpty then (original_text, [])
  else
    let markers := applyDefaults markers dst dfm
    let expansions := markers.map (wrapHandler handler)
    let replacements := (expansions.filter (fun e => e.success)).map fun e =>
      (e.marker, e.generated_content)
    let expanded_text :=
      if replacements ≠ [] then replace_all_markers original_text replacements
      else original_text
    (expanded_text, expansions)

/-! Sanity check: the spec's end-to-end scenario (§8) with a stub handler
standing for a RAG collaborator that returns "generated body". -/

example :
    (expand_file "# T\n\n## S\n\n<!-- ACADWRITE: expand -->\n- x\n<!-- END ACADWRITE -->\n"
      (fun m => .ok { marker := m, generated_content := "generated body" })
      none none).1 =
    "# T\n\n## S\n\ngenerated body\n" := by decide

/-! ## Concrete inputs used by counterexamples and bug demonstrations -/

/-- Document whose first opening directive is followed by a second opening
directive before any closing directive (opener, opener, closer). -/
def openerOpenerCloserDoc : String :=
  "<!-- ACADWRITE: expand -->\n<!-- ACADWRITE: expand -->\n<!-- END ACADWRITE -->"

/-- Document with body text before its first heading. -/
def preambleDoc : String := "Intro text.\n\n# T\nBody."

/-- Document with skipped heading levels: `# A`, `### B`, `### C` (B and C
are level-3 siblings). -/
def skippedLevelsDoc : String := "# A\n### B\n### C"

/-- Sentence of 43 characters (estimate `43 // 4 = 10`) starting with a
capital and ending with a period. -/
def sentence43a : String := ⟨'A' :: (List.replicate 41 'a' ++ ['.'])⟩

/-- Second 43-character sentence. -/
def sentence43b : String := ⟨'B' :: (List.replicate 41 'b' ++ ['.'])⟩

/-- Paragraph made of the two 43-character sentences: each has estimated
token count 10, their sum is 20, but the joined chunk has 87 characters and
estimate 21. -/
def twoSentencePara : String := sentence43a ++ " " ++ sentence43b

/-- Paragraph of twenty short sentences. -/
def twentySentencePara : String := pyJoinSep " " (List.replicate 20 "It is so.")

/-- Text whose first sentence terminator is the period at index 170: inside
the code's `(0, max_length)` window but outside the claim's 80% window
(indices below 160). -/
def lateDotText : String := ⟨List.replicate 170 'a' ++ '.' :: List.replicate 100 'b'⟩

/-- Document with one well-formed marker carrying no parameters. -/
def oneMarkerDoc : String := "<!-- ACADWRITE: expand -->\nX\n<!-- END ACADWRITE -->"

/-! ## Claim C1 (counterexample part) -/

/-- C1, counterexample: on the document opener, opener, closer,
`parse_markers` returns one marker that *does* start at the first opener
(line 0) and swallows the second opening directive as content — it does not
drop the region, contradicting the claim that an opener whose closer does
not appear before the next opener produces no marker. -/
theorem parse_markers_unclosed_region_counterexample :
    (parse_markers openerOpenerCloserDoc).map
      (fun m => (m.start_line, m.end_line, m.content)) =
      [(0, 2, "<!-- ACADWRITE: expand -->")] := by decide

/-! ## Claim C3 -/

/-- C3: text before the first heading appears in no emitted chunk.  On
`"Intro text.\n\n# T\nBody."` the chunk texts are exactly `["T", "Body."]`
— the preamble `"Intro text."` is absent from every chunk — and a document
with no heading at all yields no chunks whatsoever, so concatenating chunk
texts cannot reconstruct the body text. -/
theorem chunk_markdown_drops_preamble :
    (chunk_markdown 500 preambleDoc).map (fun c => c.text) = ["T", "Body."] ∧
    chunk_markdown 500 "Only preamble text." = [] := by decide

/-! ## Claim C4 -/

/-- C4: the stack update pops while the stack's *depth* is at least the new
heading's level, not while entries have level ≥ L.  On `# A`, `### B`,
`### C`, the level-3 sibling `B` is still on the stack when `C` is pushed
(depth 2 < 3, so nothing is popped), giving section contexts
`"A"`, `"A > B"`, `"A > B > C"`; popping entries with level ≥ 3 would give
`"A > C"` for the last section, and the strictly-increasing-levels stack
invariant fails (the stack holds levels 1, 3, 3). -/
theorem parse_sections_depth_based_popping :
    (parse_sections skippedLevelsDoc).map (fun s => (s.heading, s.level, s.context)) =
      [("A", 1, "A"), ("B", 3, "A > B"), ("C", 3, "A > B > C")] := by decide

/-! ## Claim C5 (counterexample part) -/

/-- C5, counterexample: with `max_tokens = 20`, the paragraph of two
43-character sentences (per-sentence estimates 10 and 10) is emitted as a
single two-sentence paragraph chunk whose own estimated token count is
`87 // 4 = 21 > 20`, refuting the claim that every multi-sentence sub-chunk
has `len(text) // 4 ≤ max_tokens`. -/
theorem chunk_paragraph_estimate_counterexample :
    (split_into_sentences twoSentencePara).map estimate_tokens = [10, 10] ∧
    (chunk_paragraph 20 twoSentencePara "H" "H" 0).map
      (fun c => (c.type, estimate_tokens c.text)) = [(.paragraph, 21)] := by decide

/-! ## Claim C6 -/

/-- C6: the curated abbreviation set of `_split_into_sentences` is dead
code; the regex lookbehinds only protect two-letter capitalized
abbreviations (`[A-Z][a-z]\.`, e.g. "Dr.", "Mr.") and `\w.\w.` shapes
(e.g. "e.g.", "i.e.").  Listed abbreviations such as "etc" and "al" are
not protected: the splitter breaks after "etc." and after "et al.", while
the spec's "Dr." example does hold. -/
theorem split_into_sentences_abbreviations_unprotected :
    split_into_sentences "See etc. Then more." = ["See etc.", "Then more."] ∧
    split_into_sentences "Written by Smith et al. Results follow." =
      ["Written by Smith et al.", "Results follow."] ∧
    (split_into_sentences "Dr. Smith wrote it. It was good.").length = 2 := by decide

/-! ## Claim C7 -/

/-- C7: a fenced code block with an internal blank line placed before the
first heading yields *no* chunk at all (the preamble is discarded), so
`chunk_markdown` does not emit exactly one code chunk for every document
containing such a fence; after a heading the fence is kept as one code
chunk spanning the whole fence, as the spec's own example expects. -/
theorem chunk_markdown_fence_without_heading_dropped :
    chunk_markdown 500 "```\nx\n\ny\n```" = [] ∧
    (chunk_markdown 500 "## H\n\n```python\ndef f():\n\n    return 1\n```").map
      (fun c => (c.type, c.text)) =
      [(.heading, "H"), (.code, "```python\ndef f():\n\n    return 1\n```")] := by decide

/-! ## Claim C9 (counterexample part) -/

/-- C9, counterexample: `expand_file` does not leave parsed markers'
`params` unchanged for every combination of defaults — with
`default_search_type = "vector"` it inserts `'type' ↦ "vector"` into the
params of a marker parsed with empty params. -/
theorem expand_file_mutates_params_counterexample :
    (parse_markers oneMarkerDoc).map (fun m => m.params) = [[]] ∧
    ((expand_file oneMarkerDoc (fun _ => Except.error "e") (some "vector") none).2.map
      (fun e => e.marker.params)) = [[("type", "vector")]] := by decide

/-! ## Claim C10 (counterexample part) -/

set_option maxRecDepth 4000 in
/-- C10, counterexample: on text whose first period sits at index 170
(outside the claimed 160-character 80% window) with total length 271,
`_extract_key_point` still returns the first sentence (171 characters)
rather than the claimed hard truncation at 200 characters plus ellipsis
(203 characters): the code's window is `max_length` itself, not 80% of
it. -/
theorem extract_key_point_window_counterexample :
    extract_key_point lateDotText 200 = ⟨List.replicate 170 'a' ++ ['.']⟩ ∧
    ((⟨List.replicate 170 'a' ++ ['.']⟩ : String) ≠
      ⟨stripList (lateDotText.data.take 200) ++ "...".data⟩) := by decide

/-! ## Claim C8 -/

/-- C8: `replace_all_markers` sorts its pairs by `start_line` descending
before splicing, so for two markers with distinct, non-overlapping,
in-range line spans the output is the same for either supply order, and it
equals the explicit splice in which the earlier marker's replacement text
appears before the later marker's. -/
theorem replace_all_markers_order_independent
    (text : String) (m1 m2 : ExpansionMarker) (c1 c2 : String)
    (h11 : m1.start_line ≤ m1.end_line)
    (h12 : m1.end_line < m2.start_line)
    (h22 : m2.start_line ≤ m2.end_line)
    (h2len : m2.end_line < (pySplitLines text).length) :
    replace_all_markers text [(m1, c1), (m2, c2)] =
      replace_all_markers text [(m2, c2), (m1, c1)] ∧
    replace_all_markers text [(m1, c1), (m2, c2)] =
      pyJoinLines ((pySplitLines text).take m1.start_line ++ [c1] ++
        ((pySplitLines text).take m2.start_line).drop (m1.end_line + 1) ++ [c2] ++
        (pySplitLines text).drop (m2.end_line + 1)) := by
  have hs12 : m1.start_line < m2.start_line := lt_of_le_of_lt h11 h12
  have hsortA : sortExpansionsDesc [(m1, c1), (m2, c2)] = [(m2, c2), (m1, c1)] := by
    show insertDesc (m1, c1) (insertDesc (m2, c2) []) = _
    show insertDesc (m1, c1) [(m2, c2)] = _
    unfold insertDesc
    rw [if_neg (by simpa using not_le.mpr hs12)]
    rfl
  have hsortB : sortExpansionsDesc [(m2, c2), (m1, c1)] = [(m2, c2), (m1, c1)] := by
    show insertDesc (m2, c2) (insertDesc (m1, c1) []) = _
    show insertDesc (m2, c2) [(m1, c1)] = _
    unfold insertDesc
    rw [if_pos (by simpa using hs12.le)]
  have hs2len : m2.start_line ≤ (pySplitLines text).length :=
    le_of_lt (lt_of_le_of_lt h22 h2len)
  have hLnn := pySplitLines_no_newline text
  -- the first (rightmost) replacement
  have hT1 : replace_marker_with_content text m2 c2 =
      pyJoinLines ((pySplitLines text).take m2.start_line ++ [c2] ++
        (pySplitLines text).drop (m2.end_line + 1)) := rfl
  have hsplit1 : pySplitLines (replace_marker_with_content text m2 c2) =
      (pySplitLines text).take m2.start_line ++ pySplitLines c2 ++
        (pySplitLines text).drop (m2.end_line + 1) := by
    rw [hT1]
    exact pySplitLines_splice _ _ _
      (fun x hx => hLnn x (List.take_subset _ _ hx))
      (fun x hx => hLnn x (List.drop_subset _ _ hx))
  -- the prefix and suffix seen by the second replacement
  have hlen_take : ((pySplitLines text).take m2.start_line).length = m2.start_line := by
    rw [List.length_take]
    exact min_eq_left hs2len
  have htake : (pySplitLines (replace_marker_with_content text m2 c2)).take m1.start_line =
      (pySplitLines text).take m1.start_line := by
    rw [hsplit1, List.append_assoc, List.take_append_eq_append_take, hlen_take,
      Nat.sub_eq_zero_of_le hs12.le, List.take_zero, List.append_nil,
      List.take_take, min_eq_left hs12.le]
  have hdrop : (pySplitLines (replace_marker_with_content text m2 c2)).drop (m1.end_line + 1) =
      ((pySplitLines text).take m2.start_line).drop (m1.end_line + 1) ++
        pySplitLines c2 ++ (pySplitLines text).drop (m2.end_line + 1) := by
    rw [hsplit1, List.append_assoc, List.drop_append_eq_append_drop, hlen_take,
      Nat.sub_eq_zero_of_le h12, List.drop_zero, List.append_assoc]
  have hfold : replace_marker_with_content (replace_marker_with_content text m2 c2) m1 c1 =
      pyJoinLines ((pySplitLines text).take m1.start_line ++ [c1] ++
        ((pySplitLines text).take m2.start_line).drop (m1.end_line + 1) ++ [c2] ++
        (pySplitLines text).drop (m2.end_line + 1)) := by
    show pyJoinLines
        ((pySplitLines (replace_marker_with_content text m2 c2)).take m1.start_line ++ [c1] ++
          (pySplitLines (replace_marker_with_content text m2 c2)).drop (m1.end_line + 1)) = _
    rw [htake, hdrop]
    have := pyJoinLines_replace_piece
      ((pySplitLines text).take m1.start_line ++ [c1] ++
        ((pySplitLines text).take m2.start_line).drop (m1.end_line + 1))
      ((pySplitLines text).drop (m2.end_line + 1)) c2
    simp only [List.append_assoc] at this ⊢
    exact this
  constructor
  · show (sortExpansionsDesc [(m1, c1), (m2, c2)]).foldl _ text =
      (sortExpansionsDesc [(m2, c2), (m1, c1)]).foldl _ text
    rw [hsortA, hsortB]
  · show (sortExpansionsDesc [(m1, c1), (m2, c2)]).foldl _ text = _
    rw [hsortA]
    show replace_marker_with_content (replace_marker_with_content text m2 c2) m1 c1 = _
    exact hfold

/-- C8, witness: the spec's own example — markers at lines [2,4] and
[10,12] on a 14-line document with replacements "A" and "B": both supply
orders give the same output and "A" appears before "B". -/
theorem replace_all_markers_order_independent_witness :
    (({ start_line := 2, end_line := 4, content := "" } : ExpansionMarker).start_line ≤ 4 ∧
      (4 : Nat) < 10 ∧ (10 : Nat) ≤ 12 ∧
      (12 : Nat) < (pySplitLines "l0\nl1\nl2\nl3\nl4\nl5\nl6\nl7\nl8\nl9\nl10\nl11\nl12\nl13").length) ∧
    (replace_all_markers "l0\nl1\nl2\nl3\nl4\nl5\nl6\nl7\nl8\nl9\nl10\nl11\nl12\nl13"
        [({ start_line := 2, end_line := 4, content := "" }, "A"),
         ({ start_line := 10, end_line := 12, content := "" }, "B")] =
      replace_all_markers "l0\nl1\nl2\nl3\nl4\nl5\nl6\nl7\nl8\nl9\nl10\nl11\nl12\nl13"
        [({ start_line := 10, end_line := 12, content := "" }, "B"),
         ({ start_line := 2, end_line := 4, content := "" }, "A")] ∧
      replace_all_markers "l0\nl1\nl2\nl3\nl4\nl5\nl6\nl7\nl8\nl9\nl10\nl11\nl12\nl13"
        [({ start_line := 2, end_line := 4, content := "" }, "A"),
         ({ start_line := 10, end_line := 12, content := "" }, "B")] =
      pyJoinLines ((pySplitLines "l0\nl1\nl2\nl3\nl4\nl5\nl6\nl7\nl8\nl9\nl10\nl11\nl12\nl13").take 2 ++
        ["A"] ++
        ((pySplitLines "l0\nl1\nl2\nl3\nl4\nl5\nl6\nl7\nl8\nl9\nl10\nl11\nl12\nl13").take 10).drop 5 ++
        ["B"] ++
        (pySplitLines "l0\nl1\nl2\nl3\nl4\nl5\nl6\nl7\nl8\nl9\nl10\nl11\nl12\nl13").drop 13)) :=
  ⟨⟨by decide, by decide, by decide, by decide⟩,
    replace_all_markers_order_independent
      "l0\nl1\nl2\nl3\nl4\nl5\nl6\nl7\nl8\nl9\nl10\nl11\nl12\nl13"
      { start_line := 2, end_line := 4, content := "" }
      { start_line := 10, end_line := 12, content := "" } "A" "B"
      (by decide) (by decide) (by decide) (by decide)⟩

/-! ## Shared helper lemmas for the expander claims -/

theorem applyDefaults_none_none (markers : List ExpansionMarker) :
    applyDefaults markers none none = markers := by
  simp [applyDefaults, pyTruthy]

theorem dictInsert_not_mem (d : List (String × String)) (k v : String)
    (h : dictMem d k = false) : dictInsert d k v = d ++ [(k, v)] := by
  unfold dictInsert
  rw [if_neg]
  intro hc
  rw [show (d.any fun p => p.1 = k) = dictMem d k from rfl, h] at hc
  exact Bool.false_ne_true hc

/-! ## Claim C9 (amended part) -/

/-- C9 (amended): markers are immutable through `expand_file` except for
the documented default-parameter application at its start: with both
defaults `None` nothing changes — `applyDefaults` is the identity and every
`ExpandedContent` carries exactly the marker the parser produced (assuming
the handlers return contents wrapping their own marker, as every
`_expand_*` method does) — while a supplied non-empty default search type
adds `'type' ↦ default` to the params of a marker that has neither `type`
nor `search_type`. -/
theorem expand_file_params_preserved_without_defaults :
    (∀ markers : List ExpansionMarker, applyDefaults markers none none = markers) ∧
    (∀ (text : String) (handler : ExpansionMarker → Except String ExpandedContent),
      (∀ m e, handler m = .ok e → e.marker = m) →
      ((expand_file text handler none none).2).map (fun e => e.marker) =
        parse_markers text) ∧
    (∀ (m : ExpansionMarker) (s : String), s ≠ "" →
      dictMem m.params "type" = false → dictMem m.params "search_type" = false →
      (applyDefaultsMarker (some s) none m).params = m.params ++ [("type", s)]) := by
  refine ⟨applyDefaults_none_none, ?_, ?_⟩
  · intro text handler hh
    have hmark : ∀ m : ExpansionMarker, (wrapHandler handler m).marker = m := by
      intro m
      unfold wrapHandler
      cases hm : handler m with
      | ok e => simpa using hh m e hm
      | error s => rfl
    have hmaps : ∀ ms : List ExpansionMarker,
        ((ms.map (wrapHandler handler)).map (fun e => e.marker)) = ms := by
      intro ms
      induction ms with
      | nil => rfl
      | cons a l ih =>
        simp only [List.map_cons]
        rw [hmark a, ih]
    unfold expand_file
    by_cases hemp : (parse_markers text).isEmpty
    · simp [hemp, List.isEmpty_iff.mp hemp]
    · simp only [hemp, Bool.false_eq_true, if_false, applyDefaults_none_none]
      exact hmaps (parse_markers text)
  · intro m s hs h1 h2
    have hse : s.isEmpty = false := by
      cases hq : s.isEmpty
      · rfl
      · exact absurd ((String.isEmpty_iff s).mp hq) hs
    simp [applyDefaultsMarker, pyTruthy, hse, h1, h2, dictInsert_not_mem _ _ _ h1]

/-- C9, witness: applying the amended theorem to the one-marker document
with both defaults absent — the expansion's marker is exactly the parsed
marker. -/
theorem expand_file_params_preserved_without_defaults_witness :
    ((expand_file oneMarkerDoc
        (fun m => Except.ok { marker := m, generated_content := "G" })
        none none).2).map (fun e => e.marker) = parse_markers oneMarkerDoc :=
  expand_file_params_preserved_without_defaults.2.1 oneMarkerDoc
    (fun m => Except.ok { marker := m, generated_content := "G" })
    (fun m e h => by
      have he : ({ marker := m, generated_content := "G" } : ExpandedContent) = e := by
        injection h
      rw [← he])

/-! ## Claim C10 (amended part) -/

theorem keyPointTry_eq_none (text : String) (maxL : Nat) (d : Char)
    (h : ∀ j ∈ text.data.findIdx? (· = d), ¬(0 < j ∧ j < maxL)) :
    keyPointTry text maxL d = none := by
  unfold keyPointTry
  cases hd : text.data.findIdx? (· = d) with
  | none => rfl
  | some j =>
    show (if 0 < j ∧ j < maxL then
        some (⟨stripList (text.data.take (j + 1))⟩ : String) else none) = none
    exact if_neg (h j (by simp [hd]))

theorem keyPointTry_eq_some (text : String) (maxL : Nat) (d : Char) (i : Nat)
    (hd : text.data.findIdx? (· = d) = some i) (h0 : 0 < i) (hi : i < maxL) :
    keyPointTry text maxL d = some ⟨stripList (text.data.take (i + 1))⟩ := by
  unfold keyPointTry
  rw [hd]
  show (if 0 < i ∧ i < maxL then
      some (⟨stripList (text.data.take (i + 1))⟩ : String) else none) = _
  exact if_pos ⟨h0, hi⟩

/-- C10 (amended): the first-sentence window of `_extract_key_point` is the
whole `(0, max_length)` range, not 80% of it, and the delimiters are tried
in the order `.`, `!`, `?` over the entire text: the prefix up to and
including the first `.` is returned whenever that period's index lies
strictly between 0 and `max_length` (then `!`, then `?`); only when no
delimiter hits that window is the text hard-truncated at `max_length` with
an ellipsis (if longer than `max_length`) or returned trimmed (otherwise). -/
theorem extract_key_point_characterization (text : String) (maxL : Nat) :
    (∀ i, text.data.findIdx? (· = '.') = some i → 0 < i → i < maxL →
      extract_key_point text maxL = ⟨stripList (text.data.take (i + 1))⟩) ∧
    (∀ i, (∀ j ∈ text.data.findIdx? (· = '.'), ¬(0 < j ∧ j < maxL)) →
      text.data.findIdx? (· = '!') = some i → 0 < i → i < maxL →
      extract_key_point text maxL = ⟨stripList (text.data.take (i + 1))⟩) ∧
    (∀ i, (∀ j ∈ text.data.findIdx? (· = '.'), ¬(0 < j ∧ j < maxL)) →
      (∀ j ∈ text.data.findIdx? (· = '!'), ¬(0 < j ∧ j < maxL)) →
      text.data.findIdx? (· = '?') = some i → 0 < i → i < maxL →
      extract_key_point text maxL = ⟨stripList (text.data.take (i + 1))⟩) ∧
    ((∀ d ∈ ['.', '!', '?'], ∀ j ∈ text.data.findIdx? (· = d), ¬(0 < j ∧ j < maxL)) →
      maxL < text.length →
      extract_key_point text maxL = ⟨stripList (text.data.take maxL) ++ "...".data⟩) ∧
    ((∀ d ∈ ['.', '!', '?'], ∀ j ∈ text.data.findIdx? (· = d), ¬(0 < j ∧ j < maxL)) →
      text.length ≤ maxL →
      extract_key_point text maxL = ⟨stripList text.data⟩) := by
  refine ⟨?_, ?_, ?_, ?_, ?_⟩
  · intro i hd h0 hi
    unfold extract_key_point
    rw [keyPointTry_eq_some text maxL '.' i hd h0 hi]
  · intro i hdot hd h0 hi
    unfold extract_key_point
    rw [keyPointTry_eq_none text maxL '.' hdot,
      keyPointTry_eq_some text maxL '!' i hd h0 hi]
  · intro i hdot hbang hd h0 hi
    unfold extract_key_point
    rw [keyPointTry_eq_none text maxL '.' hdot,
      keyPointTry_eq_none text maxL '!' hbang,
      keyPointTry_eq_some text maxL '?' i hd h0 hi]
  · intro hall hlen
    unfold extract_key_point
    rw [keyPointTry_eq_none text maxL '.' (hall '.' (by simp)),
      keyPointTry_eq_none text maxL '!' (hall '!' (by simp)),
      keyPointTry_eq_none text maxL '?' (hall '?' (by simp)),
      if_pos hlen]
  · intro hall hlen
    unfold extract_key_point
    rw [keyPointTry_eq_none text maxL '.' (hall '.' (by simp)),
      keyPointTry_eq_none text maxL '!' (hall '!' (by simp)),
      keyPointTry_eq_none text maxL '?' (hall '?' (by simp)),
      if_neg (not_lt.mpr hlen)]

/-- C10, witness: applying the first case of the characterization at
`"Hi there. Bye."` with `max_length = 200`: the first period is at index 8,
inside the window, and the first sentence is returned. -/
theorem extract_key_point_characterization_witness :
    ("Hi there. Bye.".data.findIdx? (· = '.') = some 8 ∧ 0 < 8 ∧ 8 < 200) ∧
    extract_key_point "Hi there. Bye." 200 =
      ⟨stripList ("Hi there. Bye.".data.take (8 + 1))⟩ :=
  ⟨⟨by decide, by decide, by decide⟩,
    (extract_key_point_characterization "Hi there. Bye." 200).1 8
      (by decide) (by decide) (by decide)⟩

/-! ## Claim C5 (amended part) -/

/-- Invariant of the `_chunk_paragraph` accumulation loop: every emitted
chunk is the space-join of a nonempty run of sentences whose estimates sum
to at most the budget, unless it is a single sentence; the running token
counter is the sum of the current sentences' estimates, and the pending run
also satisfies the budget-or-singleton property. -/
def ParaInv (maxT : Nat) (S : List String) (st : ParaScanState) : Prop :=
  (∀ c ∈ st.chunks, ∃ g : List String, g ≠ [] ∧ (∀ s ∈ g, s ∈ S) ∧
    c.text = pyJoinSep " " g ∧ c.type = ChunkType.paragraph ∧
    ((g.map estimate_tokens).sum ≤ maxT ∨ ∃ s, g = [s])) ∧
  st.curTokens = (st.cur.map estimate_tokens).sum ∧
  (∀ s ∈ st.cur, s ∈ S) ∧
  (st.cur ≠ [] → ((st.cur.map estimate_tokens).sum ≤ maxT ∨ ∃ s, st.cur = [s]))

theorem paraInv_step (maxT : Nat) (h ctx : String) (S : List String)
    (st : ParaScanState) (s : String) (hs : s ∈ S)
    (hinv : ParaInv maxT S st) :
    ParaInv maxT S (chunkParagraphStep maxT h ctx st s) := by
  obtain ⟨hchunks, htok, hmem, hbound⟩ := hinv
  simp only [chunkParagraphStep]
  by_cases hc : st.cur ≠ [] ∧ st.curTokens + estimate_tokens s > maxT
  · rw [if_pos hc]
    refine ⟨?_, ?_, ?_, ?_⟩
    · intro c hcm
      simp only [List.mem_append, List.mem_singleton] at hcm
      rcases hcm with hcm | rfl
      · exact hchunks c hcm
      · exact ⟨st.cur, hc.1, hmem, rfl, rfl, hbound hc.1⟩
    · simp
    · intro x hx
      simp only [List.nil_append, List.mem_singleton] at hx
      exact hx ▸ hs
    · intro _
      exact Or.inr ⟨s, rfl⟩
  · rw [if_neg hc]
    refine ⟨hchunks, ?_, ?_, ?_⟩
    · simp [htok]
    · intro x hx
      rcases List.mem_append.mp hx with hx | hx
      · exact hmem x hx
      · simp only [List.mem_singleton] at hx
        exact hx ▸ hs
    · intro _
      push_neg at hc
      by_cases hnil : st.cur = []
      · exact Or.inr ⟨s, by simp [hnil]⟩
      · have hle : st.curTokens + estimate_tokens s ≤ maxT := hc hnil
        left
        simp only [List.map_append, List.sum_append, List.map_cons, List.map_nil,
          List.sum_cons, List.sum_nil]
        omega

theorem paraInv_foldl (maxT : Nat) (h ctx : String) (S : List String) :
    ∀ (ss : List String) (st : ParaScanState),
      (∀ s ∈ ss, s ∈ S) → ParaInv maxT S st →
      ParaInv maxT S (ss.foldl (chunkParagraphStep maxT h ctx) st) := by
  intro ss
  induction ss with
  | nil => intro st _ hinv; exact hinv
  | cons a l ih =>
    intro st hss hinv
    rw [List.foldl_cons]
    exact ih _ (fun s hsm => hss s (List.mem_cons_of_mem a hsm))
      (paraInv_step maxT h ctx S st a (hss a (List.mem_cons_self a l)) hinv)

set_option maxRecDepth 10000 in
/-- C5 (amended): every paragraph sub-chunk is the space-join of a nonempty
run of sentences of the paragraph whose *per-sentence estimates sum* to at
most `max_tokens`, except a sub-chunk consisting of a single sentence; the
joined chunk text's own `len(text) // 4` may exceed `max_tokens` by the
separator/flooring slack (see the counterexample).  And a paragraph of 20
short sentences with `max_tokens = 20` still yields more than one
paragraph-type Chunk. -/
theorem chunk_paragraph_token_budget :
    (∀ (maxT sp : Nat) (para h ctx : String), ∀ c ∈ chunk_paragraph maxT para h ctx sp,
      ∃ g : List String, g ≠ [] ∧ (∀ s ∈ g, s ∈ split_into_sentences para) ∧
        c.text = pyJoinSep " " g ∧ c.type = ChunkType.paragraph ∧
        ((g.map estimate_tokens).sum ≤ maxT ∨ ∃ s, g = [s])) ∧
    1 < ((chunk_paragraph 20 twentySentencePara "Test" "Test" 0).filter
      (fun c => c.type = ChunkType.paragraph)).length := by
  constructor
  · intro maxT sp para h ctx c hcm
    unfold chunk_paragraph at hcm
    by_cases hnil : split_into_sentences para = []
    · rw [if_pos hnil] at hcm
      exact absurd hcm (List.not_mem_nil c)
    · rw [if_neg hnil] at hcm
      have hinv : ParaInv maxT (split_into_sentences para)
          ((split_into_sentences para).foldl (chunkParagraphStep maxT h ctx)
            { chunks := [], cur := [], curTokens := 0, start_pos := sp }) :=
        paraInv_foldl maxT h ctx _ _ _ (fun _ hx => hx)
          ⟨fun c hc => absurd hc (List.not_mem_nil c), rfl,
            fun s hsx => absurd hsx (List.not_mem_nil s), fun hne => absurd rfl hne⟩
      set st := (split_into_sentences para).foldl (chunkParagraphStep maxT h ctx)
        { chunks := [], cur := [], curTokens := 0, start_pos := sp } with hst
      obtain ⟨hchunks, _, hmem, hbound⟩ := hinv
      by_cases hcur : st.cur ≠ []
      · rw [if_pos hcur] at hcm
        simp only [List.mem_append, List.mem_singleton] at hcm
        rcases hcm with hcm | rfl
        · exact hchunks c hcm
        · exact ⟨st.cur, hcur, hmem, rfl, rfl, hbound hcur⟩
      · rw [if_neg hcur] at hcm
        exact hchunks c hcm
  · decide

/-- C5, witness: the general budget invariant applied to the two-sentence
paragraph of the counterexample — the single emitted chunk decomposes into
sentences whose estimates sum to at most 20 (or is a lone sentence). -/
theorem chunk_paragraph_token_budget_witness :
    (({ heading := "H", text := pyJoinSep " " [sentence43a, sentence43b],
        type := ChunkType.paragraph, context := "H", start_pos := 0,
        end_pos := 87 } : Chunk) ∈ chunk_paragraph 20 twoSentencePara "H" "H" 0) ∧
    (∃ g : List String, g ≠ [] ∧
      (∀ s ∈ g, s ∈ split_into_sentences twoSentencePara) ∧
      ({ heading := "H", text := pyJoinSep " " [sentence43a, sentence43b],
         type := ChunkType.paragraph, context := "H", start_pos := 0,
         end_pos := 87 } : Chunk).text = pyJoinSep " " g ∧
      ({ heading := "H", text := pyJoinSep " " [sentence43a, sentence43b],
         type := ChunkType.paragraph, context := "H", start_pos := 0,
         end_pos := 87 } : Chunk).type = ChunkType.paragraph ∧
      ((g.map estimate_tokens).sum ≤ 20 ∨ ∃ s, g = [s])) :=
  ⟨by decide,
    chunk_paragraph_token_budget.1 20 0 twoSentencePara "H" "H" _ (by decide)⟩

/-! ## Parser loop invariants (shared by claims C1 and C2) -/

theorem findEndAux_some (ls : List String) (j e : Nat)
    (h : findEndAux ls j = some e) :
    j ≤ e ∧ e - j < ls.length ∧
      endMatch (stripList ((ls.getD (e - j) "")).data) = true := by
  induction ls generalizing j with
  | nil => simp [findEndAux] at h
  | cons l ls ih =>
    unfold findEndAux at h
    by_cases hm : endMatch (stripList l.data)
    · rw [if_pos hm] at h
      injection h with h
      subst h
      exact ⟨le_refl j, by simp, by simpa using hm⟩
    · rw [if_neg hm] at h
      obtain ⟨h1, h2, h3⟩ := ih (j + 1) h
      refine ⟨by omega, by simp; omega, ?_⟩
      have hidx : e - j = (e - (j + 1)) + 1 := by omega
      rw [hidx]
      simpa using h3

theorem findEndIdx_some (lines : List String) (j e : Nat)
    (h : findEndIdx lines j = some e) :
    j ≤ e ∧ e < lines.length ∧
      endMatch (stripList ((lines.getD e "")).data) = true := by
  obtain ⟨h1, h2, h3⟩ := findEndAux_some (lines.drop j) j e h
  rw [List.length_drop] at h2
  have hjlen : j < lines.length := by omega
  have helen : e < lines.length := by omega
  refine ⟨h1, helen, ?_⟩
  have : (lines.drop j).getD (e - j) "" = lines.getD e "" := by
    rw [List.getD_eq_getElem?_getD, List.getD_eq_getElem?_getD,
      List.getElem?_drop, Nat.add_sub_cancel' h1]
  rwa [this] at h3

theorem parseLoop_start_ge (lines : List String) :
    ∀ (fuel i0 : Nat) (h : Option String) (hl : Nat),
      ∀ m ∈ parseLoop lines fuel i0 h hl, i0 ≤ m.start_line := by
  intro fuel
  induction fuel with
  | zero => intro i0 h hl m hm; simp [parseLoop] at hm
  | succ fuel ih =>
    intro i0 h hl m hm
    unfold parseLoop at hm
    split at hm
    · simp at hm
    · split at hm
      · have := ih (i0 + 1) _ _ m hm
        omega
      · split at hm
        · have := ih (i0 + 1) h hl m hm
          omega
        · split at hm
          · simp at hm
          · rename_i line _ _ _ e hf
            rcases List.mem_cons.mp hm with rfl | hm
            · exact le_refl i0
            · have he := (findEndIdx_some lines (i0 + 1) e hf).1
              have := ih (e + 1) h hl m hm
              omega

theorem parseLoop_invariant (lines : List String) :
    ∀ (fuel i0 : Nat) (h : Option String) (hl : Nat),
      (∀ m ∈ parseLoop lines fuel i0 h hl,
        i0 ≤ m.start_line ∧ m.start_line < m.end_line ∧ m.end_line < lines.length) ∧
      List.Pairwise (fun a b => a.end_line < b.start_line)
        (parseLoop lines fuel i0 h hl) := by
  intro fuel
  induction fuel with
  | zero => intro i0 h hl; simp [parseLoop]
  | succ fuel ih =>
    intro i0 h hl
    unfold parseLoop
    split
    · simp
    · split
      · rename_i line _ lvl txt _
        obtain ⟨hbnd, hpw⟩ := ih (i0 + 1) (some (pyStrip txt)) lvl
        exact ⟨fun m hm => by have := hbnd m hm; omega, hpw⟩
      · split
        · obtain ⟨hbnd, hpw⟩ := ih (i0 + 1) h hl
          exact ⟨fun m hm => by have := hbnd m hm; omega, hpw⟩
        · split
          · simp
          · rename_i e hf
            obtain ⟨he1, he2, _⟩ := findEndIdx_some lines (i0 + 1) e hf
            obtain ⟨hbnd, hpw⟩ := ih (e + 1) h hl
            constructor
            · intro m hm
              rcases List.mem_cons.mp hm with rfl | hm
              · exact ⟨le_refl i0, show i0 < e by omega, he2⟩
              · have := hbnd m hm
                omega
            · refine List.pairwise_cons.mpr ⟨?_, hpw⟩
              intro b hb
              have := (hbnd b hb).1
              show e < b.start_line
              omega

/-- Range and ordering facts for `parse_markers`: every marker's closing
line is strictly after its opening line and within the document, and the
markers' line ranges are pairwise disjoint in document order. -/
theorem parse_markers_ranges (text : String) :
    (∀ m ∈ parse_markers text,
      m.start_line < m.end_line ∧ m.end_line < (pySplitLines text).length) ∧
    List.Pairwise (fun a b => a.end_line < b.start_line) (parse_markers text) := by
  obtain ⟨hbnd, hpw⟩ :=
    parseLoop_invariant (pySplitLines text) (pySplitLines text).length 0 none 1
  exact ⟨fun m hm => ⟨(hbnd m hm).2.1, (hbnd m hm).2.2⟩, hpw⟩

/-! ## Claim C1 (amended part) -/

theorem parseLoop_no_marker_without_end (lines : List String) (i : Nat)
    (Hend : ∀ j, j < lines.length → i < j →
      endMatch (stripList ((lines.getD j "")).data) = false) :
    ∀ (fuel i0 : Nat) (h : Option String) (hl : Nat),
      ∀ m ∈ parseLoop lines fuel i0 h hl, m.start_line ≠ i := by
  intro fuel
  induction fuel with
  | zero => intro i0 h hl m hm; simp [parseLoop] at hm
  | succ fuel ih =>
    intro i0 h hl m hm
    unfold parseLoop at hm
    split at hm
    · simp at hm
    · split at hm
      · exact ih (i0 + 1) _ _ m hm
      · split at hm
        · exact ih (i0 + 1) h hl m hm
        · split at hm
          · simp at hm
          · rename_i e hf
            rcases List.mem_cons.mp hm with rfl | hm
            · show i0 ≠ i
              intro hii
              subst hii
              obtain ⟨he1, he2, he3⟩ := findEndIdx_some lines (i0 + 1) e hf
              rw [Hend e he2 (by omega)] at he3
              exact Bool.false_ne_true he3
            · exact ih (e + 1) h hl m hm

/-- C1 (amended): an opening directive line with *no closing directive line
anywhere after it before end of file* produces no ExpansionMarker —
`parse_markers` silently drops the whole region to end of file.  A later
opening directive does not close or restart the region: on opener, opener,
closer the scan swallows the second opener as content and yields exactly
one marker spanning from the first opener (line 0) to the closer
(line 2). -/
theorem parse_markers_drop_only_at_eof :
    (∀ (text : String) (i : Nat),
      i < (pySplitLines text).length →
      (startMatch (stripList (((pySplitLines text).getD i "")).data)).isSome = true →
      (∀ j, j < (pySplitLines text).length → i < j →
        endMatch (stripList (((pySplitLines text).getD j "")).data) = false) →
      ∀ m ∈ parse_markers text, m.start_line ≠ i) ∧
    (parse_markers openerOpenerCloserDoc).map
      (fun m => (m.start_line, m.end_line, m.content)) =
      [(0, 2, "<!-- ACADWRITE: expand -->")] := by
  constructor
  · intro text i _ _ Hend m hm
    exact parseLoop_no_marker_without_end (pySplitLines text) i Hend
      (pySplitLines text).length 0 none 1 m hm
  · decide

/-- C1, witness: the no-closer branch of the amended theorem applied to a
two-line document whose first line is an opener and whose second line is
plain text — `parse_markers` returns no marker at all, in particular none
starting at line 0. -/
theorem parse_markers_drop_only_at_eof_witness :
    ((0 : Nat) < (pySplitLines "<!-- ACADWRITE: expand -->\nno closer here").length ∧
      (startMatch (stripList (((pySplitLines "<!-- ACADWRITE: expand -->\nno closer here").getD 0 "")).data)).isSome = true ∧
      (∀ j, j < (pySplitLines "<!-- ACADWRITE: expand -->\nno closer here").length → 0 < j →
        endMatch (stripList (((pySplitLines "<!-- ACADWRITE: expand -->\nno closer here").getD j "")).data) = false)) ∧
    (∀ m ∈ parse_markers "<!-- ACADWRITE: expand -->\nno closer here",
      m.start_line ≠ 0) :=
  ⟨⟨by decide, by decide, by decide⟩,
    parse_markers_drop_only_at_eof.1 "<!-- ACADWRITE: expand -->\nno closer here" 0
      (by decide) (by decide) (by decide)⟩

/-! ## Sorting and splicing lemmas for `replace_all_markers` (claim C2) -/

theorem pySplitLines_ne_nil (s : String) : pySplitLines s ≠ [] := by
  unfold pySplitLines
  intro h
  exact splitNl_ne_nil s.data (List.map_eq_nil_iff.mp h)

theorem pySplitLines_length_pos (s : String) : 0 < (pySplitLines s).length :=
  List.length_pos.mpr (pySplitLines_ne_nil s)

/-- Line-list form of one `replace_marker_with_content` step. -/
theorem pySplitLines_replace (text : String) (m : ExpansionMarker) (c : String) :
    pySplitLines (replace_marker_with_content text m c) =
      (pySplitLines text).take m.start_line ++ pySplitLines c ++
        (pySplitLines text).drop (m.end_line + 1) :=
  pySplitLines_splice _ _ _
    (fun x hx => pySplitLines_no_newline text x (List.take_subset _ _ hx))
    (fun x hx => pySplitLines_no_newline text x (List.drop_subset _ _ hx))

theorem insertDesc_perm (x : ExpansionMarker × String)
    (l : List (ExpansionMarker × String)) : List.Perm (insertDesc x l) (x :: l) := by
  induction l with
  | nil => rfl
  | cons y ys ih =>
    unfold insertDesc
    by_cases h : y.1.start_line ≤ x.1.start_line
    · rw [if_pos h]
    · rw [if_neg h]
      exact (ih.cons y).trans (List.Perm.swap x y ys)

theorem sortExpansionsDesc_perm (l : List (ExpansionMarker × String)) :
    List.Perm (sortExpansionsDesc l) l := by
  induction l with
  | nil => rfl
  | cons x xs ih =>
    exact (insertDesc_perm x (sortExpansionsDesc xs)).trans (ih.cons x)

theorem insertDesc_sorted (x : ExpansionMarker × String)
    (l : List (ExpansionMarker × String))
    (hl : List.Pairwise (fun p q => q.1.start_line ≤ p.1.start_line) l) :
    List.Pairwise (fun p q => q.1.start_line ≤ p.1.start_line) (insertDesc x l) := by
  induction l with
  | nil => simp [insertDesc]
  | cons y ys ih =>
    obtain ⟨hhead, htail⟩ := List.pairwise_cons.mp hl
    unfold insertDesc
    by_cases h : y.1.start_line ≤ x.1.start_line
    · rw [if_pos h]
      refine List.pairwise_cons.mpr ⟨?_, hl⟩
      intro q hq
      rcases List.mem_cons.mp hq with rfl | hq
      · exact h
      · exact le_trans (hhead q hq) h
    · rw [if_neg h]
      refine List.pairwise_cons.mpr ⟨?_, ih htail⟩
      intro q hq
      have hq' : q ∈ x :: ys := (insertDesc_perm x ys).mem_iff.mp hq
      rcases List.mem_cons.mp hq' with rfl | hq2
      · omega
      · exact hhead q hq2

theorem sortExpansionsDesc_sorted (l : List (ExpansionMarker × String)) :
    List.Pairwise (fun p q => q.1.start_line ≤ p.1.start_line)
      (sortExpansionsDesc l) := by
  induction l with
  | nil => simp [sortExpansionsDesc]
  | cons x xs ih => exact insertDesc_sorted x _ ih

theorem applyDefaultsMarker_start_line (dst dfm : Option String)
    (m : ExpansionMarker) :
    (applyDefaultsMarker dst dfm m).start_line = m.start_line := by
  simp only [applyDefaultsMarker]
  split <;> split <;> rfl

theorem applyDefaultsMarker_end_line (dst dfm : Option String)
    (m : ExpansionMarker) :
    (applyDefaultsMarker dst dfm m).end_line = m.end_line := by
  simp only [applyDefaultsMarker]
  split <;> split <;> rfl

/-- Range and disjointness facts carry over from the parsed markers to the
default-applied markers (only `params` is touched). -/
theorem applyDefaults_ranges (text : String) (dst dfm : Option String) :
    (∀ m ∈ applyDefaults (parse_markers text) dst dfm,
      m.start_line < m.end_line ∧ m.end_line < (pySplitLines text).length) ∧
    List.Pairwise (fun a b => a.end_line < b.start_line)
      (applyDefaults (parse_markers text) dst dfm) := by
  obtain ⟨hv, hp⟩ := parse_markers_ranges text
  unfold applyDefaults
  split
  · constructor
    · intro m hm
      obtain ⟨m0, hm0, rfl⟩ := List.mem_map.mp hm
      rw [applyDefaultsMarker_start_line, applyDefaultsMarker_end_line]
      exact hv m0 hm0
    · refine List.pairwise_map.mpr (hp.imp ?_)
      intro a b hab
      rw [applyDefaultsMarker_start_line, applyDefaultsMarker_end_line]
      exact hab
  · exact ⟨hv, hp⟩

/-- Core preservation lemma: folding `replace_marker_with_content` over a
list of pairs that is sorted by `start_line` descending, pairwise disjoint,
and in range, leaves any line span `[a, b]` disjoint from every replaced
span intact — the original slice survives as a contiguous run of lines of
the result. -/
theorem foldl_replace_preserves :
    ∀ (rs : List (ExpansionMarker × String)) (text : String) (a b : Nat),
      List.Pairwise (fun p q => q.1.start_line ≤ p.1.start_line) rs →
      List.Pairwise (fun p q =>
        p.1.end_line < q.1.start_line ∨ q.1.end_line < p.1.start_line) rs →
      (∀ p ∈ rs, p.1.start_line ≤ p.1.end_line ∧
        p.1.end_line < (pySplitLines text).length) →
      a ≤ b → b < (pySplitLines text).length →
      (∀ p ∈ rs, b < p.1.start_line ∨ p.1.end_line < a) →
      ((pySplitLines text).drop a).take (b + 1 - a) <:+:
        pySplitLines (rs.foldl
          (fun t mc => replace_marker_with_content t mc.1 mc.2) text) := by
  intro rs
  induction rs with
  | nil =>
    intro text a b _ _ _ _ _ _
    exact ((List.take_prefix _ _).isInfix).trans ((List.drop_suffix _ _).isInfix)
  | cons mc rest ih =>
    intro text a b hsort hdisj hvalid hab hblen hdisjab
    obtain ⟨hsorth, hsortt⟩ := List.pairwise_cons.mp hsort
    obtain ⟨hdisjh, hdisjt⟩ := List.pairwise_cons.mp hdisj
    have hse := (hvalid mc (List.mem_cons_self _ _)).1
    have helen := (hvalid mc (List.mem_cons_self _ _)).2
    have hslen : mc.1.start_line ≤ (pySplitLines text).length := by omega
    have hrest_end : ∀ p ∈ rest, p.1.end_line < mc.1.start_line := by
      intro p hp
      rcases hdisjh p hp with h | h
      · have := hsorth p hp
        omega
      · exact h
    rw [List.foldl_cons]
    have hL' := pySplitLines_replace text mc.1 mc.2
    have hP1 : 1 ≤ (pySplitLines mc.2).length :=
      List.length_pos.mpr (pySplitLines_ne_nil mc.2)
    have hlenL' : (pySplitLines (replace_marker_with_content text mc.1 mc.2)).length =
        mc.1.start_line + (pySplitLines mc.2).length +
          ((pySplitLines text).length - (mc.1.end_line + 1)) := by
      rw [hL']
      simp only [List.length_append, List.length_take, List.length_drop,
        min_eq_left hslen]
    have hvalid' : ∀ p ∈ rest, p.1.start_line ≤ p.1.end_line ∧
        p.1.end_line <
          (pySplitLines (replace_marker_with_content text mc.1 mc.2)).length := by
      intro p hp
      refine ⟨(hvalid p (List.mem_cons_of_mem mc hp)).1, ?_⟩
      have := hrest_end p hp
      rw [hlenL']
      omega
    rcases hdisjab mc (List.mem_cons_self _ _) with hb | ha
    · -- the protected span lies strictly below this replacement
      have hslice :
          ((pySplitLines (replace_marker_with_content text mc.1 mc.2)).drop a).take
              (b + 1 - a) =
            ((pySplitLines text).drop a).take (b + 1 - a) := by
        rw [hL', List.append_assoc, List.drop_append_eq_append_drop,
          List.take_append_eq_append_take, List.length_drop, List.length_take,
          min_eq_left hslen, Nat.sub_eq_zero_of_le (by omega : b + 1 - a ≤
            mc.1.start_line - a), List.take_zero, List.append_nil,
          List.drop_take, List.take_take,
          min_eq_left (by omega : b + 1 - a ≤ mc.1.start_line - a)]
      rw [← hslice]
      exact ih (replace_marker_with_content text mc.1 mc.2) a b hsortt hdisjt
        hvalid' hab (by rw [hlenL']; omega)
        (fun p hp => hdisjab p (List.mem_cons_of_mem mc hp))
    · -- the protected span lies strictly above this replacement: it shifts
      have hprelen : ((pySplitLines text).take mc.1.start_line ++
          pySplitLines mc.2).length =
          mc.1.start_line + (pySplitLines mc.2).length := by
        simp [List.length_take, min_eq_left hslen]
      have hslice :
          ((pySplitLines (replace_marker_with_content text mc.1 mc.2)).drop
              (mc.1.start_line + (pySplitLines mc.2).length + (a - (mc.1.end_line + 1)))).take
              ((mc.1.start_line + (pySplitLines mc.2).length + (b - (mc.1.end_line + 1))) + 1 -
                (mc.1.start_line + (pySplitLines mc.2).length + (a - (mc.1.end_line + 1)))) =
            ((pySplitLines text).drop a).take (b + 1 - a) := by
        rw [hL', List.drop_append_eq_append_drop, hprelen,
          List.drop_eq_nil_of_le (by rw [hprelen]; omega), List.nil_append,
          Nat.add_sub_cancel_left, List.drop_drop]
        have h1 : mc.1.end_line + 1 + (a - (mc.1.end_line + 1)) = a := by omega
        have h2 : mc.1.start_line + (pySplitLines mc.2).length + (b - (mc.1.end_line + 1)) + 1 -
            (mc.1.start_line + (pySplitLines mc.2).length + (a - (mc.1.end_line + 1))) =
            b + 1 - a := by omega
        rw [h1, h2]
      rw [← hslice]
      exact ih (replace_marker_with_content text mc.1 mc.2) _ _ hsortt hdisjt
        hvalid' (by omega) (by rw [hlenL']; omega)
        (fun p hp => Or.inr (by have := hrest_end p hp; omega))

theorem applyDefaults_nil (dst dfm : Option String) :
    applyDefaults [] dst dfm = [] := by
  unfold applyDefaults
  split <;> rfl

theorem applyDefaults_length (ms : List ExpansionMarker) (dst dfm : Option String) :
    (applyDefaults ms dst dfm).length = ms.length := by
  unfold applyDefaults
  split
  · simp
  · rfl

/-! ## Claim C2 -/

/-- C2: `expand_file` produces exactly one `ExpandedContent` per parsed
marker; a handler exception at position `i` is caught and wrapped as a
failed `ExpandedContent` at the same position (never propagated); and only
successful expansions reach `replace_all_markers`, so the original lines of
every failed marker — its directive comment lines included — survive as a
contiguous run of lines of the returned expanded text.  The hypothesis
`hh` records that every handler returns an `ExpandedContent` wrapping its
own marker, as each `_expand_*` method of the source does. -/
theorem expand_file_failure_isolation (text : String)
    (handler : ExpansionMarker → Except String ExpandedContent)
    (dst dfm : Option String)
    (hh : ∀ m e, handler m = .ok e → e.marker = m) :
    ((expand_file text handler dst dfm).2).length = (parse_markers text).length ∧
    (∀ (i : Nat) (m : ExpansionMarker) (s : String),
      (applyDefaults (parse_markers text) dst dfm).get? i = some m →
      handler m = .error s →
      ((expand_file text handler dst dfm).2).get? i =
        some { marker := m, generated_content := "", citations := [],
               success := false, error_message := some s }) ∧
    (∀ e ∈ (expand_file text handler dst dfm).2, e.success = false →
      ((pySplitLines text).drop e.marker.start_line).take
          (e.marker.end_line + 1 - e.marker.start_line) <:+:
        pySplitLines (expand_file text handler dst dfm).1) := by
  have hwrap_marker : ∀ m, (wrapHandler handler m).marker = m := by
    intro m
    unfold wrapHandler
    cases hm : handler m with
    | ok e => simpa using hh m e hm
    | error s => rfl
  by_cases hemp : (parse_markers text).isEmpty
  · have hexp : expand_file text handler dst dfm = (text, []) := by
      unfold expand_file
      rw [if_pos hemp]
    have hmz : parse_markers text = [] := List.isEmpty_iff.mp hemp
    refine ⟨by simp [hexp, hmz], ?_, ?_⟩
    · intro i m s hg _
      rw [hmz, applyDefaults_nil] at hg
      simp at hg
    · intro e he
      rw [hexp] at he
      simp at he
  · have hexp2 : (expand_file text handler dst dfm).2 =
        (applyDefaults (parse_markers text) dst dfm).map (wrapHandler handler) := by
      unfold expand_file
      rw [if_neg hemp]
    have hexp1 : (expand_file text handler dst dfm).1 =
        (if ((((applyDefaults (parse_markers text) dst dfm).map
              (wrapHandler handler)).filter (fun e => e.success)).map
              (fun e => (e.marker, e.generated_content))) ≠ [] then
          replace_all_markers text
            ((((applyDefaults (parse_markers text) dst dfm).map
              (wrapHandler handler)).filter (fun e => e.success)).map
              (fun e => (e.marker, e.generated_content)))
        else text) := by
      unfold expand_file
      rw [if_neg hemp]
    set markers' := applyDefaults (parse_markers text) dst dfm with hM
    set exps := markers'.map (wrapHandler handler) with hE
    set replacements := (exps.filter (fun e => e.success)).map
      (fun e => (e.marker, e.generated_content)) with hR
    obtain ⟨hval', hpair'⟩ := applyDefaults_ranges text dst dfm
    rw [← hM] at hval' hpair'
    have hexpsmark : exps.map (fun e => e.marker) = markers' := by
      rw [hE, List.map_map]
      have : ∀ m ∈ markers', ((fun e => e.marker) ∘ wrapHandler handler) m = id m :=
        fun m _ => hwrap_marker m
      rw [List.map_congr_left this, List.map_id]
    have hmem_marker : ∀ p ∈ replacements, p.1 ∈ markers' ∧
        ∃ e', e' ∈ exps ∧ e'.success = true ∧ e'.marker = p.1 := by
      intro p hp
      rw [hR] at hp
      obtain ⟨e', he', rfl⟩ := List.mem_map.mp hp
      obtain ⟨hin, hsucc⟩ := List.mem_filter.mp he'
      refine ⟨?_, e', hin, hsucc, rfl⟩
      rw [← hexpsmark]
      exact List.mem_map_of_mem (fun e => e.marker) hin
    refine ⟨?_, ?_, ?_⟩
    · rw [hexp2, List.length_map, hM, applyDefaults_length]
    · intro i m s hg he
      rw [hexp2, List.get?_map, hg, Option.map_some']
      unfold wrapHandler
      rw [he]
    · intro e he hfail
      rw [hexp2] at he
      obtain ⟨m0, hm0, rfl⟩ := List.mem_map.mp he
      rw [hwrap_marker m0]
      obtain ⟨hm0lt, hm0len⟩ := hval' m0 hm0
      rw [hexp1]
      by_cases hrep : replacements ≠ []
      · rw [if_pos hrep]
        show _ <:+: pySplitLines ((sortExpansionsDesc replacements).foldl
          (fun t mc => replace_marker_with_content t mc.1 mc.2) text)
        have hfst : replacements.map Prod.fst =
            (exps.filter (fun e => e.success)).map (fun e => e.marker) := by
          rw [hR, List.map_map]
          rfl
        have hpairE : List.Pairwise (fun a b => a.end_line < b.start_line)
            (exps.map (fun e => e.marker)) := by
          rw [hexpsmark]
          exact hpair'
        have hpairF : List.Pairwise (fun a b => a.end_line < b.start_line)
            ((exps.filter (fun e => e.success)).map (fun e => e.marker)) :=
          List.Pairwise.sublist ((List.filter_sublist exps).map _) hpairE
        have hpairR : List.Pairwise (fun p q : ExpansionMarker × String =>
            p.1.end_line < q.1.start_line) replacements := by
          rw [← hfst] at hpairF
          exact List.pairwise_map.mp hpairF
        have hsymm : Symmetric (fun p q : ExpansionMarker × String =>
            p.1.end_line < q.1.start_line ∨ q.1.end_line < p.1.start_line) :=
          fun p q h => h.symm
        apply foldl_replace_preserves
        · exact sortExpansionsDesc_sorted replacements
        · exact ((sortExpansionsDesc_perm replacements).pairwise_iff @hsymm).mpr
            (hpairR.imp (fun h => Or.inl h))
        · intro p hp
          have hpR := (sortExpansionsDesc_perm replacements).mem_iff.mp hp
          have hmem := (hmem_marker p hpR).1
          obtain ⟨h1, h2⟩ := hval' p.1 hmem
          exact ⟨le_of_lt h1, h2⟩
        · exact le_of_lt hm0lt
        · exact hm0len
        · intro p hp
          have hpR := (sortExpansionsDesc_perm replacements).mem_iff.mp hp
          obtain ⟨hmem, e', hin, hsucc, hmk⟩ := hmem_marker p hpR
          have hne : m0 ≠ p.1 := by
            intro hq
            obtain ⟨m1, hm1, rfl⟩ := List.mem_map.mp hin
            rw [hwrap_marker m1] at hmk
            have hms : (wrapHandler handler m0).success = true := by
              rw [hq, ← hmk]
              exact hsucc
            rw [hfail] at hms
            exact Bool.false_ne_true hms
          have hsymM : Symmetric (fun a b : ExpansionMarker =>
              a.end_line < b.start_line ∨ b.end_line < a.start_line) :=
            fun a b h => h.symm
          have := (hpair'.imp (fun h => Or.inl h)).forall hsymM hm0 hmem hne
          rcases this with h | h
          · exact Or.inl h
          · exact Or.inr h
      · rw [if_neg hrep]
        exact ((List.take_prefix _ _).isInfix).trans ((List.drop_suffix _ _).isInfix)

/-- Input document for the C2 witness: a heading, one marker the stub
handler expands successfully, and one marker on which it raises. -/
def twoMarkerDoc : String :=
  "# H\n<!-- ACADWRITE: expand -->\na\n<!-- END ACADWRITE -->\nmid\n<!-- ACADWRITE: clarity -->\nb\n<!-- END ACADWRITE -->\ntail"

/-- Stub handler for the C2 witness: succeeds on the marker opening at
line 1, raises "boom" on every other marker. -/
def stubHandler (m : ExpansionMarker) : Except String ExpandedContent :=
  if m.start_line = 1 then Except.ok { marker := m, generated_content := "NEW" }
  else Except.error "boom"

theorem stubHandler_marker (m : ExpansionMarker) (e : ExpandedContent)
    (h : stubHandler m = .ok e) : e.marker = m := by
  unfold stubHandler at h
  by_cases hc : m.start_line = 1
  · rw [if_pos hc] at h
    injection h with h
    rw [← h]
  · rw [if_neg hc] at h
    exact absurd h (by simp)

/-- C2, witness: the theorem applied to `twoMarkerDoc` with `stubHandler`
(which raises on the second marker). -/
theorem expand_file_failure_isolation_witness :
    (∀ m e, stubHandler m = .ok e → e.marker = m) ∧
    (((expand_file twoMarkerDoc stubHandler none none).2).length =
        (parse_markers twoMarkerDoc).length ∧
      (∀ (i : Nat) (m : ExpansionMarker) (s : String),
        (applyDefaults (parse_markers twoMarkerDoc) none none).get? i = some m →
        stubHandler m = .error s →
        ((expand_file twoMarkerDoc stubHandler none none).2).get? i =
          some { marker := m, generated_content := "", citations := [],
                 success := false, error_message := some s }) ∧
      (∀ e ∈ (expand_file twoMarkerDoc stubHandler none none).2, e.success = false →
        ((pySplitLines twoMarkerDoc).drop e.marker.start_line).take
            (e.marker.end_line + 1 - e.marker.start_line) <:+:
          pySplitLines (expand_file twoMarkerDoc stubHandler none none).1)) :=
  ⟨stubHandler_marker,
    expand_file_failure_isolation twoMarkerDoc stubHandler none none stubHandler_marker⟩

end Acadwrite
